import Mathlib

/-!
Verification of the Compound Identifier Resolution Engine of this repository
(`step-two_v2.py`, class `ComprehensiveSMILESRetriever`).

The Python code is shallowly embedded as pure Lean functions:
* strings are Lean `String`s and most character-level work happens on `List Char`;
* the external PubChem backend is a record of oracle functions, one per URL
  shape the code issues; `none` models a non-200 response, a transport error, or
  a JSON-decoding exception (the code treats all of these identically);
* parsed JSON responses are modelled by the `PyVal` type (Python dict / list /
  str / number); Python operations that can raise (`in` on a number, indexing a
  non-container, ...) return `Except Unit`, mirroring the broad
  `try`/`except` blocks of the source;
* the mutable per-run state (`self.cache`, `self.failed_compounds`,
  `self.strategy_stats`, the progress counters) is threaded explicitly;
* each resolution additionally records a trace of the backend calls it issued
  and the (strategy, variant) pairs it attempted, so that ordering and
  "no backend traffic" properties can be stated;
* scanner-style string rewriting (`re.sub`, `str.replace`) is implemented with
  an explicit fuel argument equal to the input length, which bounds the number
  of scanning steps; every step consumes at least one character, so the fuel
  never runs out on the wrapper entry points.
* the two concurrency modes are modelled by sequential folds over the input
  list: cascades for distinct names are independent and the claims under study
  are about the per-name results and final state, not about interleaving.
-/

/-- Whitespace characters recognised by Python's `str.strip` / `\s` for the
ASCII range (space, tab, newline, carriage return, vertical tab, form feed). -/
def isSpaceChar (c : Char) : Bool :=
  c = ' ' ∨ c = '\t' ∨ c = '\n' ∨ c = '\r' ∨ c = '\x0b' ∨ c = '\x0c'

/-- Python `str.strip()` on a character list: drop whitespace from both ends. -/
def stripList (l : List Char) : List Char :=
  ((l.dropWhile isSpaceChar).reverse.dropWhile isSpaceChar).reverse

/-- Python `str.strip()`. -/
def pyStrip (s : String) : String := ⟨stripList s.data⟩

/-- One scanning pass of `re.sub(r'\s+', ' ', ...)`: every maximal run of
whitespace becomes a single space.  `fuel` bounds the number of steps; each
step consumes at least one character. -/
def collapseSpacesF : Nat → List Char → List Char
  | _, [] => []
  | 0, l => l
  | n + 1, c :: rest =>
    if isSpaceChar c then ' ' :: collapseSpacesF n (rest.dropWhile isSpaceChar)
    else c :: collapseSpacesF n rest

/-- `re.sub(r'\s+', ' ', s)`. -/
def collapseSpaces (s : String) : String := ⟨collapseSpacesF s.data.length s.data⟩

/-- Scan for the first closing delimiter; returns the remainder after it. -/
def findCloseAfter (cl : Char) : List Char → Option (List Char)
  | [] => none
  | c :: rest => if c = cl then some rest else findCloseAfter cl rest

/-- Try to match `\s*OP[^CL]*CL` at the head of `l` (the regex engine's match
attempt at one position): maximal whitespace run, then the opening delimiter,
then everything up to and including the first closing delimiter.  Returns the
remainder after the match. -/
def matchEnclosed (op cl : Char) (l : List Char) : Option (List Char) :=
  match l.dropWhile isSpaceChar with
  | c :: tail => if c = op then findCloseAfter cl tail else none
  | [] => none

/-- `re.sub(r'\s*OP[^CL]*CL', '', ...)`: left-to-right, non-overlapping
removal of every delimited segment (with its leading whitespace). -/
def removeEnclosedF (op cl : Char) : Nat → List Char → List Char
  | _, [] => []
  | 0, l => l
  | n + 1, x :: rest =>
    match matchEnclosed op cl (x :: rest) with
    | some rest' => removeEnclosedF op cl n rest'
    | none => x :: removeEnclosedF op cl n rest

/-- `re.sub(r'\s*\(...\)', '', s)` and the bracketed analogue. -/
def removeEnclosed (op cl : Char) (s : String) : String :=
  ⟨removeEnclosedF op cl s.data.length s.data⟩

/-- Python `pat in s` (substring containment). -/
def substrContains (pat : List Char) : List Char → Bool
  | [] => pat.isPrefixOf []
  | c :: rest => pat.isPrefixOf (c :: rest) || substrContains pat rest

/-- Python `s.replace(pat, repl)`: left-to-right, non-overlapping replacement
of every occurrence; the replacement text is not rescanned. -/
def replaceSubF (pat repl : List Char) : Nat → List Char → List Char
  | _, [] => []
  | 0, l => l
  | n + 1, x :: rest =>
    if pat.isPrefixOf (x :: rest) then
      repl ++ replaceSubF pat repl n ((x :: rest).drop pat.length)
    else x :: replaceSubF pat repl n rest

/-- Python `s.replace(pat, repl)` for a non-empty pattern. -/
def replaceSub (pat repl : List Char) (l : List Char) : List Char :=
  replaceSubF pat repl l.length l

/-- Python `s.lower()` (ASCII case folding). -/
def lowerStr (s : String) : String := ⟨s.data.map Char.toLower⟩

/-- Python `x in somelist` / `x in someset` for string collections. -/
def memb : List String → String → Bool
  | [], _ => false
  | x :: rest, k => if x = k then true else memb rest k

/-- The recognized notation alphabet of `validate_smiles` (source line 213). -/
def validChars : List Char :=
  "abcdefghijklmnopqrstuvwxyzABCDEFGHIJKLMNOPQRSTUVWXYZ0123456789()[]@+-=#/\\.".data

/-- `validate_smiles` (source lines 201-224): reject falsy input, strip, then
require length at least 3, all characters in the alphabet, and individually
balanced parentheses and square brackets. -/
def validate_smiles (smiles : String) : Bool :=
  if smiles = "" then false
  else
    let s := pyStrip smiles
    if s.length < 3 then false
    else if ¬ (∀ c ∈ s.data, c ∈ validChars) then false
    else
      let parens : Int := (s.data.count '(' : Int) - (s.data.count ')' : Int)
      let brackets : Int := (s.data.count '[' : Int) - (s.data.count ']' : Int)
      if parens ≠ 0 ∨ brackets ≠ 0 then false
      else true

/-- The Greek-letter transliteration table of `clean_compound_name`
(source lines 131-138; the keys are the exact two-character sequences that
appear in the source file). -/
def greekReplacements : List (String × String) :=
  [("Œ±", "alpha"), ("Œ≤", "beta"), ("Œ≥", "gamma"), ("Œ¥", "delta"),
   ("Œµ", "epsilon"), ("Œ∂", "zeta"), ("Œ∑", "eta"), ("Œ∏", "theta"),
   ("Œ∫", "kappa"), ("Œª", "lambda"), ("Œº", "mu"), ("ŒΩ", "nu"),
   ("Œæ", "xi"), ("œÄ", "pi"), ("œÅ", "rho"), ("œÉ", "sigma"),
   ("œÑ", "tau"), ("œÖ", "upsilon"), ("œÜ", "phi"), ("œá", "chi"),
   ("œà", "psi"), ("œâ", "omega")]

/-- The sequential `greek_variant` replacement loop of `clean_compound_name`. -/
def greekTransliterate (cleaned : String) : String :=
  greekReplacements.foldl
    (fun gv p =>
      if substrContains p.1.data gv.data then ⟨replaceSub p.1.data p.2.data gv.data⟩
      else gv)
    cleaned

/-- The separators handled by `clean_compound_name` (source line 116). -/
def separators : List Char := ['-', '_', '/', ',', ';']

/-- Replace every occurrence of a single character by a space. -/
def mapReplaceChar (sep rep : Char) (s : String) : String :=
  ⟨s.data.map (fun c => if c = sep then rep else c)⟩

/-- Remove every occurrence of a single character. -/
def removeChar (sep : Char) (s : String) : String :=
  ⟨s.data.filter (fun c => ¬ c = sep)⟩

/-- The separator loop of `clean_compound_name` (source lines 116-128): for
each separator present in the cleaned name, append a spaced variant and a
separator-free variant, each only if not already in the list. -/
def separatorVariants (cleaned : String) (variants0 : List String) : List String :=
  separators.foldl
    (fun variants sep =>
      if cleaned.data.contains sep then
        let spaced := pyStrip (collapseSpaces (mapReplaceChar sep ' ' cleaned))
        let variants := if memb variants spaced then variants else variants ++ [spaced]
        let no_sep := pyStrip (collapseSpaces (removeChar sep cleaned))
        if memb variants no_sep then variants else variants ++ [no_sep]
      else variants)
    variants0

/-- The final deduplication loop of `clean_compound_name` (source lines
148-154): keep non-empty variants whose lowercase form was not seen before. -/
def dedupCIGo : List String → List String → List String
  | _, [] => []
  | seen, v :: rest =>
    if v ≠ "" ∧ memb seen (lowerStr v) = false then
      v :: dedupCIGo (lowerStr v :: seen) rest
    else dedupCIGo seen rest

/-- `clean_compound_name` (source lines 88-156): generate the ordered list of
query variants for one raw compound name. -/
def clean_compound_name (name : String) : List String :=
  if name = "" then []
  else
    let name1 := pyStrip name
    if name1 = "" ∨ name1.length < 2 then []
    else
      let cleaned := pyStrip (collapseSpaces name1)
      let variants : List String := if cleaned ≠ "" then [cleaned] else []
      let no_parens := pyStrip (removeEnclosed '(' ')' cleaned)
      let variants :=
        if no_parens ≠ "" ∧ no_parens ≠ cleaned then variants ++ [no_parens] else variants
      let no_brackets := pyStrip (removeEnclosed '[' ']' cleaned)
      let variants :=
        if no_brackets ≠ "" ∧ no_brackets ≠ cleaned then variants ++ [no_brackets] else variants
      let variants := separatorVariants cleaned variants
      let greek_variant := greekTransliterate cleaned
      let variants :=
        if greek_variant ≠ cleaned ∧ memb variants greek_variant = false then
          variants ++ [greek_variant]
        else variants
      (dedupCIGo [] variants).take 5

/-- Model of parsed-JSON Python values: dicts (association lists in insertion
order), lists, strings and numbers. -/
inductive PyVal where
  | str : String → PyVal
  | num : Int → PyVal
  | list : List PyVal → PyVal
  | dict : List (String × PyVal) → PyVal

mutual

/-- Structural size of a Python value; used as recursion fuel for the
nested-dict walk of `extract_smiles_comprehensive` (it strictly bounds the
nesting depth). -/
def pySize : PyVal → Nat
  | .str _ => 1
  | .num _ => 1
  | .list l => 1 + pySizeItems l
  | .dict f => 1 + pySizeFields f

/-- Size of a list of Python values. -/
def pySizeItems : List PyVal → Nat
  | [] => 0
  | v :: rest => 1 + pySize v + pySizeItems rest

/-- Size of the field list of a Python dict. -/
def pySizeFields : List (String × PyVal) → Nat
  | [] => 0
  | (_, v) :: rest => 1 + pySize v + pySizeFields rest

end

/-- Python `k in v` for a string `k`: key lookup on dicts, element equality on
lists, substring test on strings; raises `TypeError` on a number. -/
def pyIn (k : String) (v : PyVal) : Except Unit Bool :=
  match v with
  | .dict fields => .ok (fields.any (fun p => p.1 = k))
  | .list items =>
    .ok (items.any (fun it => match it with | .str s => s = k | _ => false))
  | .str s => .ok (substrContains k.data s.data)
  | .num _ => .error ()

/-- Python `v[k]` for a string key: dict lookup (`KeyError` when absent),
`TypeError` on anything else. -/
def pyGet (v : PyVal) (k : String) : Except Unit PyVal :=
  match v with
  | .dict fields =>
    match fields.find? (fun p => p.1 = k) with
    | some p => .ok p.2
    | none => .error ()
  | _ => .error ()

/-- Python `v.get(k, dflt)`: only dicts have `.get`; anything else raises
`AttributeError`. -/
def dictGetD (v : PyVal) (k : String) (dflt : PyVal) : Except Unit PyVal :=
  match v with
  | .dict fields =>
    match fields.find? (fun p => p.1 = k) with
    | some p => .ok p.2
    | none => .ok dflt
  | _ => .error ()

/-- Python `v[0]`: head of a list (`IndexError` when empty), first character of
a string, `TypeError` otherwise. -/
def pyIndex0 : PyVal → Except Unit PyVal
  | .list (x :: _) => .ok x
  | .list [] => .error ()
  | .str s =>
    match s.data with
    | c :: _ => .ok (.str ⟨[c]⟩)
    | [] => .error ()
  | _ => .error ()

/-- Python `v[:n]` followed by iteration: a list yields its first `n`
elements, a string its first `n` characters; slicing anything else raises. -/
def pySliceTake (v : PyVal) (n : Nat) : Except Unit (List PyVal) :=
  match v with
  | .list l => .ok (l.take n)
  | .str s => .ok ((s.data.take n).map (fun c => PyVal.str ⟨[c]⟩))
  | _ => .error ()

/-- Python truthiness: empty containers, the empty string and zero are falsy. -/
def pyTruthy : PyVal → Bool
  | .str s => ¬ s = ""
  | .num n => ¬ n = 0
  | .list l => ¬ l.isEmpty
  | .dict f => ¬ f.isEmpty

/-- Python `str(v)` as used to build request URLs and method labels.  Backend
identifier codes are numbers or strings; container reprs are abbreviated. -/
def pyStr : PyVal → String
  | .str s => s
  | .num n => toString n
  | .list _ => "<list>"
  | .dict _ => "<dict>"

/-- `data.get('IdentifierList', {}).get('CID', [])` (source lines 261, 337, 458). -/
def getCidsField (data : PyVal) : Except Unit PyVal :=
  match dictGetD data "IdentifierList" (.dict []) with
  | .error e => .error e
  | .ok il => dictGetD il "CID" (.list [])

/-- `data.get('InformationList', {}).get('Information', [])` (source line 293). -/
def getInfoList (data : PyVal) : Except Unit PyVal :=
  match dictGetD data "InformationList" (.dict []) with
  | .error e => .error e
  | .ok il => dictGetD il "Information" (.list [])

/-- The property names probed by `extract_smiles_comprehensive`
(source lines 167, 176). -/
def smilesKeys : List String := ["CanonicalSMILES", "IsomericSMILES", "SMILES"]

/-- The inner key loop of `extract_smiles_comprehensive`: for each candidate
key present in `prop`, return the stripped value if the validator accepts it
(a non-string value fails the validator's `isinstance` check); otherwise try
the next key. -/
def tryKeys (prop : PyVal) : List String → Except Unit (Option String)
  | [] => .ok none
  | k :: ks =>
    match pyIn k prop with
    | .error e => .error e
    | .ok false => tryKeys prop ks
    | .ok true =>
      match pyGet prop k with
      | .error e => .error e
      | .ok (.str s) =>
        if validate_smiles s then .ok (some (pyStrip s)) else tryKeys prop ks
      | .ok _ => tryKeys prop ks

/-- The property-list loop of extraction strategy 2 (source lines 174-180). -/
def tryProps : List PyVal → Except Unit (Option String)
  | [] => .ok none
  | p :: ps =>
    match tryKeys p smilesKeys with
    | .error e => .error e
    | .ok (some s) => .ok (some s)
    | .ok none => tryProps ps

/-- Extraction strategy 1 (source lines 162-171): the standard
`PropertyTable` / `Properties` shape. -/
def extractStep1 (d : PyVal) : Except Unit (Option String) :=
  match pyIn "PropertyTable" d with
  | .error e => .error e
  | .ok false => .ok none
  | .ok true =>
    match pyGet d "PropertyTable" with
    | .error e => .error e
    | .ok pt =>
      match pyIn "Properties" pt with
      | .error e => .error e
      | .ok false => .ok none
      | .ok true =>
        match pyGet pt "Properties" with
        | .error e => .error e
        | .ok (.list (prop :: _)) => tryKeys prop smilesKeys
        | .ok _ => .ok none

/-- Extraction strategy 2 (source lines 174-180): a top-level `Properties`
array. -/
def extractStep2 (d : PyVal) : Except Unit (Option String) :=
  match pyIn "Properties" d with
  | .error e => .error e
  | .ok false => .ok none
  | .ok true =>
    match pyGet d "Properties" with
    | .error e => .error e
    | .ok (.list items) => tryProps items
    | .ok _ => .ok none

/-- The list part of extraction strategy 3 (source lines 189-194): recurse
into every dict element of a list value. -/
def itemsGo (f : PyVal → Option String) : List PyVal → Option String
  | [] => none
  | it :: rest =>
    match it with
    | .dict _ =>
      match f it with
      | some s => some s
      | none => itemsGo f rest
    | _ => itemsGo f rest

/-- The dict part of extraction strategy 3 (source lines 183-194): walk the
items in order, recursing into dict values and into dict elements of list
values.  The recursive call is the already-exception-wrapped extractor, as in
the source. -/
def fieldsGo (f : PyVal → Option String) : List (String × PyVal) → Option String
  | [] => none
  | (_, v) :: rest =>
    match v with
    | .dict _ =>
      match f v with
      | some s => some s
      | none => fieldsGo f rest
    | .list items =>
      match itemsGo f items with
      | some s => some s
      | none => fieldsGo f rest
    | _ => fieldsGo f rest

/-- One layer of `extract_smiles_comprehensive`: strategies 1, 2, then 3,
with `f` standing for the recursive call. -/
def extractStep (f : PyVal → Option String) (d : PyVal) : Except Unit (Option String) :=
  match extractStep1 d with
  | .error e => .error e
  | .ok (some s) => .ok (some s)
  | .ok none =>
    match extractStep2 d with
    | .error e => .error e
    | .ok (some s) => .ok (some s)
    | .ok none =>
      match d with
      | .dict fields => .ok (fieldsGo f fields)
      | _ => .ok none

/-- `extract_smiles_comprehensive` with explicit recursion fuel: the
surrounding `try`/`except` turns any exception into `None` (source lines
196-199).  Fuel only bounds the nesting depth of the recursion of strategy 3;
`sizeOf` of the input is always sufficient. -/
def extractF : Nat → PyVal → Option String
  | 0, _ => none
  | n + 1, d =>
    match extractStep (extractF n) d with
    | .ok r => r
    | .error _ => none

/-- `extract_smiles_comprehensive` (source lines 158-199). -/
def extract (d : PyVal) : Option String := extractF (pySize d) d

/-- One backend request, identified the way the source builds request URLs
(URL-encoding of the raw variant is injective, so requests are keyed by the
raw string; identifier-code requests are keyed by `str(cid)` exactly as the
URL is built). -/
inductive Call where
  | getNameProperty : String → Call
  | getNameCids : String → Call
  | getNameSynonyms : String → Call
  | getCidProperty : String → Call
  | postNameProperty : String → Call
deriving DecidableEq

/-- The external lookup service, one oracle function per URL shape used by the
source; `none` stands for any non-200 status, transport error or JSON-decoding
failure (all handled identically by the source). -/
structure Backend where
  getNameProperty : String → Option PyVal
  getNameCids : String → Option PyVal
  getNameSynonyms : String → Option PyVal
  getCidProperty : String → Option PyVal
  postNameProperty : String → Option PyVal

/-- `self.strategy_stats` (a `defaultdict(int)`): an association list of
per-strategy success counters. -/
def Stats := List (String × Nat)

/-- `self.strategy_stats[key] += 1`: bump the first entry with this key, or
append a fresh entry at count 1. -/
def statInc : Stats → String → Stats
  | [], k => [(k, 1)]
  | p :: rest, k => if p.1 = k then (p.1, p.2 + 1) :: rest else p :: statInc rest k

/-- Total of all per-strategy success counters. -/
def statsSum (stats : Stats) : Nat := (stats.map Prod.snd).sum

/-- Result of one search strategy (or of the whole strategy loop): the found
identifier, the method label the source returns, the updated statistics, the
backend calls issued and the (strategy, variant) pairs attempted, in order. -/
structure StratRes where
  smiles : Option String
  method : String
  stats : Stats
  calls : List Call
  attempts : List (String × String)

/-- The body of strategy 1 for one variant (source lines 230-245): one
direct name-to-property request. -/
def strat1Var (b : Backend) (stats : Stats) (v : String) :
    Option (String × String) × Stats × List Call :=
  match b.getNameProperty v with
  | some data =>
    match extract data with
    | some smiles =>
      (some (smiles, "name_direct:" ++ v), statInc stats "name_direct", [.getNameProperty v])
    | none => (none, stats, [.getNameProperty v])
  | none => (none, stats, [.getNameProperty v])

/-- The inner identifier-code loop shared by strategies 2 and 4 and the
synchronous path (source lines 265-273, 341-349, 460-470): request the
property of each code in turn and stop at the first extractable identifier.
`statKey` is both the statistics key and the method-label head. -/
def tryCids (b : Backend) (statKey : String) (stats : Stats) :
    List PyVal → Option (String × String) × Stats × List Call
  | [] => (none, stats, [])
  | cid :: rest =>
    match b.getCidProperty (pyStr cid) with
    | some sdata =>
      match extract sdata with
      | some smiles =>
        (some (smiles, statKey ++ ":" ++ pyStr cid), statInc stats statKey,
         [.getCidProperty (pyStr cid)])
      | none =>
        let r := tryCids b statKey stats rest
        (r.1, r.2.1, .getCidProperty (pyStr cid) :: r.2.2)
    | none =>
      let r := tryCids b statKey stats rest
      (r.1, r.2.1, .getCidProperty (pyStr cid) :: r.2.2)

/-- The body of strategy 2 for one variant (source lines 253-277): fetch the
identifier-code list, then try up to 3 codes; any exception in the chained
`.get` accesses or the slicing aborts only this variant. -/
def strat2Var (b : Backend) (stats : Stats) (v : String) :
    Option (String × String) × Stats × List Call :=
  match b.getNameCids v with
  | some data =>
    match getCidsField data with
    | .error _ => (none, stats, [.getNameCids v])
    | .ok cids =>
      if pyTruthy cids then
        match pySliceTake cids 3 with
        | .error _ => (none, stats, [.getNameCids v])
        | .ok cl =>
          let r := tryCids b "cid_based" stats cl
          (r.1, r.2.1, .getNameCids v :: r.2.2)
      else (none, stats, [.getNameCids v])
  | none => (none, stats, [.getNameCids v])

/-- The inner synonym loop of strategy 3 (source lines 298-311): re-invoke the
direct name lookup on each synonym; a non-string synonym makes `quote` raise,
which the inner `except` turns into "try the next synonym". -/
def trySynonyms (b : Backend) (stats : Stats) :
    List PyVal → Option (String × String) × Stats × List Call
  | [] => (none, stats, [])
  | syn :: rest =>
    match syn with
    | .str s =>
      match b.getNameProperty s with
      | some sdata =>
        match extract sdata with
        | some smiles =>
          (some (smiles, "synonym_based:" ++ s), statInc stats "synonym_based",
           [.getNameProperty s])
        | none =>
          let r := trySynonyms b stats rest
          (r.1, r.2.1, .getNameProperty s :: r.2.2)
      | none =>
        let r := trySynonyms b stats rest
        (r.1, r.2.1, .getNameProperty s :: r.2.2)
    | _ => trySynonyms b stats rest

/-- The body of strategy 3 for one variant (source lines 285-315): fetch the
synonym list, then try the first 5 synonyms. -/
def strat3Var (b : Backend) (stats : Stats) (v : String) :
    Option (String × String) × Stats × List Call :=
  match b.getNameSynonyms v with
  | some data =>
    match getInfoList data with
    | .error _ => (none, stats, [.getNameSynonyms v])
    | .ok info_list =>
      if pyTruthy info_list then
        match pyIndex0 info_list with
        | .error _ => (none, stats, [.getNameSynonyms v])
        | .ok i0 =>
          match pyIn "Synonym" i0 with
          | .error _ => (none, stats, [.getNameSynonyms v])
          | .ok true =>
            match pyGet i0 "Synonym" with
            | .error _ => (none, stats, [.getNameSynonyms v])
            | .ok syn =>
              match pySliceTake syn 5 with
              | .error _ => (none, stats, [.getNameSynonyms v])
              | .ok syns =>
                let r := trySynonyms b stats syns
                (r.1, r.2.1, .getNameSynonyms v :: r.2.2)
          | .ok false => (none, stats, [.getNameSynonyms v])
      else (none, stats, [.getNameSynonyms v])
  | none => (none, stats, [.getNameSynonyms v])

/-- The body of strategy 4 for one variant (source lines 326-353): a
wildcard identifier-code request on the variant with `*` appended, then try
up to 2 codes. -/
def strat4Var (b : Backend) (stats : Stats) (v : String) :
    Option (String × String) × Stats × List Call :=
  match b.getNameCids (v ++ "*") with
  | some data =>
    match getCidsField data with
    | .error _ => (none, stats, [.getNameCids (v ++ "*")])
    | .ok cids =>
      if pyTruthy cids then
        match pySliceTake cids 2 with
        | .error _ => (none, stats, [.getNameCids (v ++ "*")])
        | .ok cl =>
          let r := tryCids b "fuzzy_search" stats cl
          (r.1, r.2.1, .getNameCids (v ++ "*") :: r.2.2)
      else (none, stats, [.getNameCids (v ++ "*")])
  | none => (none, stats, [.getNameCids (v ++ "*")])

/-- The body of strategy 5 for one variant (source lines 361-384): submit the
variant as a request body. -/
def strat5Var (b : Backend) (stats : Stats) (v : String) :
    Option (String × String) × Stats × List Call :=
  match b.postNameProperty v with
  | some data =>
    match extract data with
    | some smiles =>
      (some (smiles, "post_request:" ++ v), statInc stats "post_request",
       [.postNameProperty v])
    | none => (none, stats, [.postNameProperty v])
  | none => (none, stats, [.postNameProperty v])

/-- The `for variant in variants` loop shared by every strategy: run the
per-variant body on each variant in order, stopping at the first hit; record
each attempted (strategy, variant) pair. -/
def stratLoop (sn : String)
    (f : Stats → String → Option (String × String) × Stats × List Call)
    (failMethod : String) (stats : Stats) : List String → StratRes
  | [] => ⟨none, failMethod, stats, [], []⟩
  | v :: vs =>
    match (f stats v).1 with
    | some pr => ⟨some pr.1, pr.2, (f stats v).2.1, (f stats v).2.2, [(sn, v)]⟩
    | none =>
      ⟨(stratLoop sn f failMethod ((f stats v).2.1) vs).smiles,
       (stratLoop sn f failMethod ((f stats v).2.1) vs).method,
       (stratLoop sn f failMethod ((f stats v).2.1) vs).stats,
       (f stats v).2.2 ++ (stratLoop sn f failMethod ((f stats v).2.1) vs).calls,
       (sn, v) :: (stratLoop sn f failMethod ((f stats v).2.1) vs).attempts⟩

/-- `search_strategy_1_name_direct` (source lines 226-247).  Every strategy
takes the fuzzy-search flag for a uniform signature; only strategy 4 reads it. -/
def search_strategy_1_name_direct (ef : Bool) (b : Backend) (stats : Stats)
    (compound_name : String) : StratRes :=
  stratLoop "name_direct" (strat1Var b) "strategy_1_failed" stats
    (clean_compound_name compound_name)

/-- `search_strategy_2_cid_based` (source lines 249-279). -/
def search_strategy_2_cid_based (ef : Bool) (b : Backend) (stats : Stats)
    (compound_name : String) : StratRes :=
  stratLoop "cid_based" (strat2Var b) "strategy_2_failed" stats
    (clean_compound_name compound_name)

/-- `search_strategy_3_synonym_based` (source lines 281-317). -/
def search_strategy_3_synonym_based (ef : Bool) (b : Backend) (stats : Stats)
    (compound_name : String) : StratRes :=
  stratLoop "synonym_based" (strat3Var b) "strategy_3_failed" stats
    (clean_compound_name compound_name)

/-- `search_strategy_4_fuzzy_search` (source lines 319-355); returns
immediately when fuzzy search is disabled. -/
def search_strategy_4_fuzzy_search (ef : Bool) (b : Backend) (stats : Stats)
    (compound_name : String) : StratRes :=
  if ef then
    stratLoop "fuzzy_search" (strat4Var b) "strategy_4_failed" stats
      (clean_compound_name compound_name)
  else ⟨none, "fuzzy_disabled", stats, [], []⟩

/-- `search_strategy_5_post_request` (source lines 357-386). -/
def search_strategy_5_post_request (ef : Bool) (b : Backend) (stats : Stats)
    (compound_name : String) : StratRes :=
  stratLoop "post_request" (strat5Var b) "strategy_5_failed" stats
    (clean_compound_name compound_name)

/-- The strategy list of `comprehensive_smiles_search` in source order
(source lines 400-406): direct name, identifier-code, synonym, free-text
POST, then fuzzy wildcard last. -/
def strategies : List (Bool → Backend → Stats → String → StratRes) :=
  [search_strategy_1_name_direct, search_strategy_2_cid_based,
   search_strategy_3_synonym_based, search_strategy_5_post_request,
   search_strategy_4_fuzzy_search]

/-- The `for strategy in strategies` loop of `comprehensive_smiles_search`
(source lines 408-416): run each strategy in order, stopping at the first
hit; when every strategy misses the method label is `all_strategies_failed`. -/
def runStrategies (ef : Bool) (b : Backend) (name : String) (stats : Stats) :
    List (Bool → Backend → Stats → String → StratRes) → StratRes
  | [] => ⟨none, "all_strategies_failed", stats, [], []⟩
  | g :: gs =>
    match (g ef b stats name).smiles with
    | some _ => g ef b stats name
    | none =>
      ⟨(runStrategies ef b name ((g ef b stats name).stats) gs).smiles,
       (runStrategies ef b name ((g ef b stats name).stats) gs).method,
       (runStrategies ef b name ((g ef b stats name).stats) gs).stats,
       (g ef b stats name).calls ++
         (runStrategies ef b name ((g ef b stats name).stats) gs).calls,
       (g ef b stats name).attempts ++
         (runStrategies ef b name ((g ef b stats name).stats) gs).attempts⟩

/-- The per-run mutable resolver state: `self.cache`, `self.failed_compounds`
and `self.strategy_stats`. -/
structure CState where
  cache : List (String × String)
  failed_compounds : List String
  strategy_stats : Stats

/-- `self.cache[k]` lookup (`k in self.cache` and the subscript combined). -/
def cacheGet : List (String × String) → String → Option String
  | [], _ => none
  | p :: rest, k => if p.1 = k then some p.2 else cacheGet rest k

/-- Outcome of one cascade: the tuple the source returns plus the updated
state and the recorded traces. -/
structure CascRes where
  name : String
  smiles : Option String
  status : String
  state : CState
  calls : List Call
  attempts : List (String × String)

/-- `comprehensive_smiles_search` (source lines 388-420): serve from the
cache, then from the failure registry, otherwise run all strategies in order;
a hit is cached, exhaustion is recorded in the failure registry. -/
def comprehensive_smiles_search (ef : Bool) (b : Backend) (st : CState)
    (compound_name : String) : CascRes :=
  match cacheGet st.cache compound_name with
  | some s => ⟨compound_name, some s, "cached", st, [], []⟩
  | none =>
    if memb st.failed_compounds compound_name then
      ⟨compound_name, none, "permanently_failed", st, [], []⟩
    else
      match (runStrategies ef b compound_name st.strategy_stats strategies).smiles with
      | some s =>
        ⟨compound_name, some s,
         (runStrategies ef b compound_name st.strategy_stats strategies).method,
         ⟨(compound_name, s) :: st.cache, st.failed_compounds,
          (runStrategies ef b compound_name st.strategy_stats strategies).stats⟩,
         (runStrategies ef b compound_name st.strategy_stats strategies).calls,
         (runStrategies ef b compound_name st.strategy_stats strategies).attempts⟩
      | none =>
        ⟨compound_name, none, "all_strategies_failed",
         ⟨st.cache, compound_name :: st.failed_compounds,
          (runStrategies ef b compound_name st.strategy_stats strategies).stats⟩,
         (runStrategies ef b compound_name st.strategy_stats strategies).calls,
         (runStrategies ef b compound_name st.strategy_stats strategies).attempts⟩

/-- The synchronous identifier-code strategy for one variant (source lines
451-472): an identifier-code request trying up to 2 codes; any exception
aborts only this variant.  Part of the `sync_comprehensive_search` variant
loop: for each variant, a direct name request (a non-200 response, an
exception, or an unextractable body all fall through identically), then this
identifier-code attempt, then the next variant. -/
def syncCid (b : Backend) (stats : Stats) (v : String) :
    Option (String × String) × Stats × List Call :=
  match b.getNameCids v with
  | some data =>
    match getCidsField data with
    | .ok cids =>
      match pySliceTake cids 2 with
      | .ok cl =>
        ((tryCids b "sync_cid_based" stats cl).1,
         (tryCids b "sync_cid_based" stats cl).2.1,
         .getNameCids v :: (tryCids b "sync_cid_based" stats cl).2.2)
      | .error _ => (none, stats, [.getNameCids v])
    | .error _ => (none, stats, [.getNameCids v])
  | none => (none, stats, [.getNameCids v])

/-- The variant loop proper of `sync_comprehensive_search`. -/
def syncVars (b : Backend) (stats : Stats) :
    List String → Option (String × String) × Stats × List Call
  | [] => (none, stats, [])
  | v :: vs =>
    match (b.getNameProperty v).bind extract with
    | some smiles =>
      (some (smiles, "sync_name_direct:" ++ v), statInc stats "sync_name_direct",
       [.getNameProperty v])
    | none =>
      match (syncCid b stats v).1 with
      | some pr =>
        (some pr, (syncCid b stats v).2.1, .getNameProperty v :: (syncCid b stats v).2.2)
      | none =>
        ((syncVars b ((syncCid b stats v).2.1) vs).1,
         (syncVars b ((syncCid b stats v).2.1) vs).2.1,
         .getNameProperty v :: (syncCid b stats v).2.2 ++
           (syncVars b ((syncCid b stats v).2.1) vs).2.2)

/-- `sync_comprehensive_search` (source lines 422-475): cache and failure
registry first, then the variant-major loop over the two synchronous
strategies. -/
def sync_comprehensive_search (b : Backend) (st : CState)
    (compound_name : String) : CascRes :=
  match cacheGet st.cache compound_name with
  | some s => ⟨compound_name, some s, "cached", st, [], []⟩
  | none =>
    if memb st.failed_compounds compound_name then
      ⟨compound_name, none, "permanently_failed", st, [], []⟩
    else
      match (syncVars b st.strategy_stats (clean_compound_name compound_name)).1 with
      | some pr =>
        ⟨compound_name, some pr.1, pr.2,
         ⟨(compound_name, pr.1) :: st.cache, st.failed_compounds,
          (syncVars b st.strategy_stats (clean_compound_name compound_name)).2.1⟩,
         (syncVars b st.strategy_stats (clean_compound_name compound_name)).2.2, []⟩
      | none =>
        ⟨compound_name, none, "sync_all_failed",
         ⟨st.cache, compound_name :: st.failed_compounds,
          (syncVars b st.strategy_stats (clean_compound_name compound_name)).2.1⟩,
         (syncVars b st.strategy_stats (clean_compound_name compound_name)).2.2, []⟩

/-- The whole per-run state: resolver state plus the progress counters of
`update_progress`. -/
structure RunState where
  cstate : CState
  processed_count : Nat
  success_count : Nat

/-- `update_progress` (source lines 477-490): bump the processed counter and,
on success, the success counter (the console snapshot is I/O only). -/
def update_progress (rs : RunState) (success : Bool) : RunState :=
  ⟨rs.cstate, rs.processed_count + 1,
   if success then rs.success_count + 1 else rs.success_count⟩

/-- `async_process_compounds` (source lines 492-533): run one cascade per
compound and collect the name-to-identifier pairs.  The bounded-concurrency
driver is modelled as a sequential fold; the claims under study concern the
per-name results and the final aggregate state, not task interleaving. -/
def async_process_compounds (ef : Bool) (b : Backend) (rs : RunState) :
    List String → List (String × Option String) × RunState
  | [] => ([], rs)
  | c :: cs =>
    (((comprehensive_smiles_search ef b rs.cstate c).name,
      (comprehensive_smiles_search ef b rs.cstate c).smiles) ::
       (async_process_compounds ef b
         (update_progress
           ⟨(comprehensive_smiles_search ef b rs.cstate c).state,
            rs.processed_count, rs.success_count⟩
           (comprehensive_smiles_search ef b rs.cstate c).smiles.isSome) cs).1,
     (async_process_compounds ef b
       (update_progress
         ⟨(comprehensive_smiles_search ef b rs.cstate c).state,
          rs.processed_count, rs.success_count⟩
         (comprehensive_smiles_search ef b rs.cstate c).smiles.isSome) cs).2)

/-- `sync_process_compounds` (source lines 535-560): the worker-pool mode,
one synchronous cascade per compound, modelled as the same sequential fold. -/
def sync_process_compounds (b : Backend) (rs : RunState) :
    List String → List (String × Option String) × RunState
  | [] => ([], rs)
  | c :: cs =>
    (((sync_comprehensive_search b rs.cstate c).name,
      (sync_comprehensive_search b rs.cstate c).smiles) ::
       (sync_process_compounds b
         (update_progress
           ⟨(sync_comprehensive_search b rs.cstate c).state,
            rs.processed_count, rs.success_count⟩
           (sync_comprehensive_search b rs.cstate c).smiles.isSome) cs).1,
     (sync_process_compounds b
       (update_progress
         ⟨(sync_comprehensive_search b rs.cstate c).state,
          rs.processed_count, rs.success_count⟩
         (sync_comprehensive_search b rs.cstate c).smiles.isSome) cs).2)

/-- `p` is an initial segment of `q`. -/
def isHeadSeg {α : Type} (p q : List α) : Prop := ∃ t, p ++ t = q

/-- The fixed strategy priority order of the cascade, by statistics key:
direct name, identifier code, synonym, free-text POST, fuzzy wildcard. -/
def strategyOrder : List String :=
  ["name_direct", "cid_based", "synonym_based", "post_request", "fuzzy_search"]

/-- All (strategy, variant) pairs for a set of strategy names in
strategy-major, variant-minor order. -/
def pairsFor (name : String) (sns : List String) : List (String × String) :=
  sns.foldr (fun sn acc => (clean_compound_name name).map (fun v => (sn, v)) ++ acc) []

/-- The full strategy-major, variant-minor attempt order for one compound. -/
def strategyMajorPairs (name : String) : List (String × String) :=
  pairsFor name strategyOrder

/-- The reset resolver state at the start of a run (source lines 630-634). -/
def st0 : CState := ⟨[], [], []⟩

/-- The reset run state at the start of a run. -/
def rs0 : RunState := ⟨st0, 0, 0⟩

/-- A typical successful property response body. -/
def wData : PyVal :=
  .dict [("PropertyTable", .dict [("Properties",
    .list [.dict [("CanonicalSMILES", .str "CC(=O)Oc1ccccc1C(=O)O")]])])]

/-- A backend that answers only the direct-name lookup, for one name. -/
def wBackend : Backend :=
  { getNameProperty := fun v => if v = "aspirin" then some wData else none
    getNameCids := fun _ => none
    getNameSynonyms := fun _ => none
    getCidProperty := fun _ => none
    postNameProperty := fun _ => none }

/-- A backend on which one name resolves only through the free-text POST
strategy. -/
def cePost : Backend :=
  { getNameProperty := fun _ => none
    getNameCids := fun _ => none
    getNameSynonyms := fun _ => none
    getCidProperty := fun _ => none
    postNameProperty := fun v => if v = "aspirin" then some wData else none }

/-- A backend that would resolve any direct-name request whatsoever. -/
def ceAllGood : Backend :=
  { getNameProperty := fun _ => some wData
    getNameCids := fun _ => none
    getNameSynonyms := fun _ => none
    getCidProperty := fun _ => none
    postNameProperty := fun _ => some wData }

/-- Modelled from the spec: the spec stipulates that empty and
whitespace-only names are "rejected upstream with status `Invalid`"; the
code has no such status or counter, so the spec-side invalid statistic is the
number of input names whose variant list is empty.  Used only to compare the
spec's statistics identity with the code. -/
def invalidUpstreamCount (names : List String) : Nat :=
  (names.filter (fun n => clean_compound_name n = [])).length

/-- Every identifier stored in the cache passes the validator. -/
def cacheOK (c : List (String × String)) : Bool :=
  c.all (fun p => validate_smiles p.2)

theorem dropWhile_length_le (p : Char → Bool) (l : List Char) :
    (l.dropWhile p).length ≤ l.length := by
  induction l with
  | nil => simp
  | cons a l ih =>
    by_cases h : p a
    · rw [List.dropWhile_cons, if_pos h]
      exact le_trans ih (by simp)
    · rw [List.dropWhile_cons, if_neg h]

theorem head?_dropWhile_not (p : Char → Bool) (l : List Char) :
    ∀ a, (l.dropWhile p).head? = some a → p a = false := by
  induction l with
  | nil => intro a h; simp at h
  | cons x l ih =>
    intro a h
    by_cases hx : p x
    · rw [List.dropWhile_cons, if_pos hx] at h
      exact ih a h
    · rw [List.dropWhile_cons, if_neg hx] at h
      simp only [List.head?_cons, Option.some.injEq] at h
      subst h
      exact Bool.eq_false_iff.mpr hx

theorem dropWhile_eq_self_of_head (p : Char → Bool) (l : List Char)
    (h : ∀ a, l.head? = some a → p a = false) : l.dropWhile p = l := by
  cases l with
  | nil => rfl
  | cons x l =>
    rw [List.dropWhile_cons, if_neg]
    simp [h x rfl]

theorem getLast?_dropWhile (p : Char → Bool) (l : List Char)
    (h : l.dropWhile p ≠ []) : (l.dropWhile p).getLast? = l.getLast? := by
  induction l with
  | nil => simp at h
  | cons x l ih =>
    by_cases hx : p x
    · rw [List.dropWhile_cons, if_pos hx] at h ⊢
      have hl : l ≠ [] := by
        intro e
        subst e
        simp [List.dropWhile] at h
      rw [ih h]
      cases l with
      | nil => exact absurd rfl hl
      | cons y l => rw [List.getLast?_cons_cons]
    · rw [List.dropWhile_cons, if_neg hx]

theorem stripList_idem (l : List Char) : stripList (stripList l) = stripList l := by
  unfold stripList
  by_cases hNe : (l.dropWhile isSpaceChar).reverse.dropWhile isSpaceChar = []
  · simp [hNe]
  · have hNhead : ∀ a,
        ((l.dropWhile isSpaceChar).reverse.dropWhile isSpaceChar).head? = some a →
        isSpaceChar a = false :=
      fun a ha => head?_dropWhile_not isSpaceChar (l.dropWhile isSpaceChar).reverse a ha
    have hNlast : ∀ a,
        ((l.dropWhile isSpaceChar).reverse.dropWhile isSpaceChar).getLast? = some a →
        isSpaceChar a = false := by
      intro a ha
      rw [getLast?_dropWhile isSpaceChar _ hNe, List.getLast?_reverse] at ha
      exact head?_dropWhile_not isSpaceChar l a ha
    have h1 : ((l.dropWhile isSpaceChar).reverse.dropWhile isSpaceChar).reverse.dropWhile
        isSpaceChar = ((l.dropWhile isSpaceChar).reverse.dropWhile isSpaceChar).reverse :=
      dropWhile_eq_self_of_head _ _ (fun a ha => hNlast a (by rwa [List.head?_reverse] at ha))
    rw [h1, List.reverse_reverse,
      dropWhile_eq_self_of_head _ _ hNhead]

theorem pyStrip_idem (s : String) : pyStrip (pyStrip s) = pyStrip s :=
  congrArg String.mk (stripList_idem s.data)

theorem stripList_length_le (l : List Char) : (stripList l).length ≤ l.length := by
  unfold stripList
  simp only [List.length_reverse]
  exact le_trans (dropWhile_length_le _ _)
    (by simpa using dropWhile_length_le isSpaceChar l)

theorem count_dropWhile_not (p : Char → Bool) (c : Char) (hc : p c = false)
    (l : List Char) : (l.dropWhile p).count c = l.count c := by
  induction l with
  | nil => rfl
  | cons x l ih =>
    by_cases hx : p x
    · rw [List.dropWhile_cons, if_pos hx, ih, List.count_cons]
      have hxc : ¬ x == c := by
        intro he
        rw [eq_of_beq he, hc] at hx
        exact Bool.false_ne_true hx
      simp [hxc]
    · rw [List.dropWhile_cons, if_neg hx]

theorem count_stripList (c : Char) (hc : isSpaceChar c = false) (l : List Char) :
    (stripList l).count c = l.count c := by
  unfold stripList
  rw [List.count_reverse, count_dropWhile_not _ _ hc, List.count_reverse,
    count_dropWhile_not _ _ hc]

theorem validate_smiles_iff (s : String) :
    validate_smiles s = true ↔
      (¬ s = "" ∧ 3 ≤ (pyStrip s).length ∧ (∀ c ∈ (pyStrip s).data, c ∈ validChars) ∧
       (pyStrip s).data.count '(' = (pyStrip s).data.count ')' ∧
       (pyStrip s).data.count '[' = (pyStrip s).data.count ']') := by
  unfold validate_smiles
  split_ifs with h1 h2 h3 h4 <;> simp_all <;> omega

theorem validate_smiles_pyStrip (s : String) (h : validate_smiles s = true) :
    validate_smiles (pyStrip s) = true := by
  rw [validate_smiles_iff] at h ⊢
  obtain ⟨h1, h2, h3, h4, h5⟩ := h
  rw [pyStrip_idem]
  refine ⟨?_, h2, h3, h4, h5⟩
  intro he
  rw [he] at h2
  exact absurd h2 (by decide)

theorem tryKeys_valid (prop : PyVal) :
    ∀ (ks : List String) (s : String), tryKeys prop ks = .ok (some s) →
      validate_smiles s = true := by
  intro ks
  induction ks with
  | nil => intro s h; simp [tryKeys] at h
  | cons k ks ih =>
    intro s h
    unfold tryKeys at h
    split at h
    · exact absurd h (by simp)
    · exact ih s h
    · split at h
      · exact absurd h (by simp)
      · split at h
        · simp only [Except.ok.injEq, Option.some.injEq] at h
          subst h
          next _ hv => exact validate_smiles_pyStrip _ hv
        · exact ih s h
      · exact ih s h

theorem tryProps_valid :
    ∀ (items : List PyVal) (s : String), tryProps items = .ok (some s) →
      validate_smiles s = true := by
  intro items
  induction items with
  | nil => intro s h; simp [tryProps] at h
  | cons p ps ih =>
    intro s h
    unfold tryProps at h
    split at h
    · exact absurd h (by simp)
    · simp only [Except.ok.injEq, Option.some.injEq] at h
      subst h
      next hk => exact tryKeys_valid _ _ _ hk
    · exact ih s h

theorem extractStep1_valid (d : PyVal) (s : String)
    (h : extractStep1 d = .ok (some s)) : validate_smiles s = true := by
  unfold extractStep1 at h
  split at h <;> first
    | exact absurd h (by simp)
    | (split at h <;> first
        | exact absurd h (by simp)
        | (split at h <;> first
            | exact absurd h (by simp)
            | (split at h <;> first
                | exact absurd h (by simp)
                | exact tryKeys_valid _ _ _ h)))

theorem extractStep2_valid (d : PyVal) (s : String)
    (h : extractStep2 d = .ok (some s)) : validate_smiles s = true := by
  unfold extractStep2 at h
  split at h <;> first
    | exact absurd h (by simp)
    | (split at h <;> first
        | exact absurd h (by simp)
        | exact tryProps_valid _ _ h)

theorem itemsGo_valid (f : PyVal → Option String)
    (hf : ∀ d s, f d = some s → validate_smiles s = true) :
    ∀ (items : List PyVal) (s : String), itemsGo f items = some s →
      validate_smiles s = true := by
  intro items
  induction items with
  | nil => intro s h; simp [itemsGo] at h
  | cons it rest ih =>
    intro s h
    unfold itemsGo at h
    split at h
    · split at h
      · simp only [Option.some.injEq] at h
        subst h
        next hfi => exact hf _ _ hfi
      · exact ih s h
    · exact ih s h

theorem fieldsGo_valid (f : PyVal → Option String)
    (hf : ∀ d s, f d = some s → validate_smiles s = true) :
    ∀ (fields : List (String × PyVal)) (s : String), fieldsGo f fields = some s →
      validate_smiles s = true := by
  intro fields
  induction fields with
  | nil => intro s h; simp [fieldsGo] at h
  | cons kv rest ih =>
    intro s h
    unfold fieldsGo at h
    split at h
    · split at h
      · simp only [Option.some.injEq] at h
        subst h
        next hfi => exact hf _ _ hfi
      · exact ih s h
    · split at h
      · simp only [Option.some.injEq] at h
        subst h
        next hfi => exact itemsGo_valid f hf _ _ hfi
      · exact ih s h
    · exact ih s h

theorem extractStep_valid (f : PyVal → Option String)
    (hf : ∀ d s, f d = some s → validate_smiles s = true) (d : PyVal) (s : String)
    (h : extractStep f d = .ok (some s)) : validate_smiles s = true := by
  unfold extractStep at h
  split at h
  · exact absurd h (by simp)
  · simp only [Except.ok.injEq, Option.some.injEq] at h
    subst h
    next h1 => exact extractStep1_valid _ _ h1
  · split at h
    · exact absurd h (by simp)
    · simp only [Except.ok.injEq, Option.some.injEq] at h
      subst h
      next h2 => exact extractStep2_valid _ _ h2
    · split at h
      · simp only [Except.ok.injEq] at h
        exact fieldsGo_valid f hf _ _ h
      · exact absurd h (by simp)

theorem extractF_valid : ∀ (n : Nat) (d : PyVal) (s : String),
    extractF n d = some s → validate_smiles s = true := by
  intro n
  induction n with
  | zero => intro d s h; simp [extractF] at h
  | succ n ih =>
    intro d s h
    unfold extractF at h
    split at h
    · next r hr =>
      subst h
      exact extractStep_valid (extractF n) ih d s hr
    · exact absurd h (by simp)

theorem extract_valid (d : PyVal) (s : String) (h : extract d = some s) :
    validate_smiles s = true :=
  extractF_valid (pySize d) d s h

theorem isHeadSeg_cons {α : Type} (a : α) {p q : List α} (h : isHeadSeg p q) :
    isHeadSeg (a :: p) (a :: q) := by
  obtain ⟨t, ht⟩ := h
  exact ⟨t, by simp [ht]⟩

theorem isHeadSeg_append_left {α : Type} (A : List α) {p q : List α}
    (h : isHeadSeg p q) : isHeadSeg (A ++ p) (A ++ q) := by
  obtain ⟨t, ht⟩ := h
  exact ⟨t, by rw [List.append_assoc, ht]⟩

theorem isHeadSeg_extend {α : Type} {p q : List α} (r : List α)
    (h : isHeadSeg p q) : isHeadSeg p (q ++ r) := by
  obtain ⟨t, ht⟩ := h
  exact ⟨t ++ r, by rw [← List.append_assoc, ht]⟩

theorem isHeadSeg_refl {α : Type} (p : List α) : isHeadSeg p p := ⟨[], by simp⟩

theorem isHeadSeg_nil {α : Type} (p : List α) : isHeadSeg [] p := ⟨p, rfl⟩

theorem statsSum_statInc (stats : Stats) (k : String) :
    statsSum (statInc stats k) = statsSum stats + 1 := by
  induction stats with
  | nil => simp [statInc, statsSum]
  | cons p rest ih =>
    by_cases h : p.1 = k
    · simp [statInc, h, statsSum]
      omega
    · simp only [statInc, if_neg h, statsSum, List.map_cons, List.sum_cons] at ih ⊢
      omega

theorem tryCids_spec (b : Backend) (key : String) :
    ∀ (cl : List PyVal) (stats : Stats),
      ((tryCids b key stats cl).1 = none → (tryCids b key stats cl).2.1 = stats) ∧
      (∀ pr, (tryCids b key stats cl).1 = some pr →
        statsSum (tryCids b key stats cl).2.1 = statsSum stats + 1 ∧
        validate_smiles pr.1 = true) := by
  intro cl
  induction cl with
  | nil =>
    intro stats
    exact ⟨fun _ => rfl, fun pr h => absurd h (by simp [tryCids])⟩
  | cons cid rest ih =>
    intro stats
    unfold tryCids
    split
    · split
      next sm hsm =>
        refine ⟨fun h => absurd h (by simp), fun pr h => ?_⟩
        simp only [Option.some.injEq] at h
        subst h
        exact ⟨statsSum_statInc stats key, extract_valid _ _ hsm⟩
      next hsm =>
        dsimp only
        exact ⟨fun h => (ih stats).1 h, fun pr h => (ih stats).2 pr h⟩
    · dsimp only
      exact ⟨fun h => (ih stats).1 h, fun pr h => (ih stats).2 pr h⟩

theorem trySynonyms_spec (b : Backend) :
    ∀ (syns : List PyVal) (stats : Stats),
      ((trySynonyms b stats syns).1 = none → (trySynonyms b stats syns).2.1 = stats) ∧
      (∀ pr, (trySynonyms b stats syns).1 = some pr →
        statsSum (trySynonyms b stats syns).2.1 = statsSum stats + 1 ∧
        validate_smiles pr.1 = true) := by
  intro syns
  induction syns with
  | nil =>
    intro stats
    exact ⟨fun _ => rfl, fun pr h => absurd h (by simp [trySynonyms])⟩
  | cons syn rest ih =>
    intro stats
    unfold trySynonyms
    split
    · split
      · split
        next sm hsm =>
          refine ⟨fun h => absurd h (by simp), fun pr h => ?_⟩
          simp only [Option.some.injEq] at h
          subst h
          exact ⟨statsSum_statInc stats "synonym_based", extract_valid _ _ hsm⟩
        next hsm =>
          dsimp only
          exact ⟨fun h => (ih stats).1 h, fun pr h => (ih stats).2 pr h⟩
      · dsimp only
        exact ⟨fun h => (ih stats).1 h, fun pr h => (ih stats).2 pr h⟩
    · exact ⟨fun h => (ih stats).1 h, fun pr h => (ih stats).2 pr h⟩

theorem strat1Var_spec (b : Backend) (stats : Stats) (v : String) :
    ((strat1Var b stats v).1 = none → (strat1Var b stats v).2.1 = stats) ∧
    (∀ pr, (strat1Var b stats v).1 = some pr →
      statsSum (strat1Var b stats v).2.1 = statsSum stats + 1 ∧
      validate_smiles pr.1 = true) := by
  unfold strat1Var
  split
  · split
    next sm hsm =>
      refine ⟨fun h => absurd h (by simp), fun pr h => ?_⟩
      simp only [Option.some.injEq] at h
      subst h
      exact ⟨statsSum_statInc stats "name_direct", extract_valid _ _ hsm⟩
    next hsm => exact ⟨fun _ => rfl, fun pr h => absurd h (by simp)⟩
  · exact ⟨fun _ => rfl, fun pr h => absurd h (by simp)⟩

theorem strat2Var_spec (b : Backend) (stats : Stats) (v : String) :
    ((strat2Var b stats v).1 = none → (strat2Var b stats v).2.1 = stats) ∧
    (∀ pr, (strat2Var b stats v).1 = some pr →
      statsSum (strat2Var b stats v).2.1 = statsSum stats + 1 ∧
      validate_smiles pr.1 = true) := by
  unfold strat2Var
  split
  · split
    · exact ⟨fun _ => rfl, fun pr h => absurd h (by simp)⟩
    · split
      · split
        · exact ⟨fun _ => rfl, fun pr h => absurd h (by simp)⟩
        · exact ⟨fun h => (tryCids_spec b "cid_based" _ stats).1 h,
                 fun pr h => (tryCids_spec b "cid_based" _ stats).2 pr h⟩
      · exact ⟨fun _ => rfl, fun pr h => absurd h (by simp)⟩
  · exact ⟨fun _ => rfl, fun pr h => absurd h (by simp)⟩

theorem strat3Var_spec (b : Backend) (stats : Stats) (v : String) :
    ((strat3Var b stats v).1 = none → (strat3Var b stats v).2.1 = stats) ∧
    (∀ pr, (strat3Var b stats v).1 = some pr →
      statsSum (strat3Var b stats v).2.1 = statsSum stats + 1 ∧
      validate_smiles pr.1 = true) := by
  unfold strat3Var
  split
  · split
    · exact ⟨fun _ => rfl, fun pr h => absurd h (by simp)⟩
    · split
      · split
        · exact ⟨fun _ => rfl, fun pr h => absurd h (by simp)⟩
        · split
          · exact ⟨fun _ => rfl, fun pr h => absurd h (by simp)⟩
          · split
            · exact ⟨fun _ => rfl, fun pr h => absurd h (by simp)⟩
            · split
              · exact ⟨fun _ => rfl, fun pr h => absurd h (by simp)⟩
              · dsimp only
                exact ⟨fun h => (trySynonyms_spec b _ stats).1 h,
                       fun pr h => (trySynonyms_spec b _ stats).2 pr h⟩
          · exact ⟨fun _ => rfl, fun pr h => absurd h (by simp)⟩
      · exact ⟨fun _ => rfl, fun pr h => absurd h (by simp)⟩
  · exact ⟨fun _ => rfl, fun pr h => absurd h (by simp)⟩

theorem strat4Var_spec (b : Backend) (stats : Stats) (v : String) :
    ((strat4Var b stats v).1 = none → (strat4Var b stats v).2.1 = stats) ∧
    (∀ pr, (strat4Var b stats v).1 = some pr →
      statsSum (strat4Var b stats v).2.1 = statsSum stats + 1 ∧
      validate_smiles pr.1 = true) := by
  unfold strat4Var
  split
  · split
    · exact ⟨fun _ => rfl, fun pr h => absurd h (by simp)⟩
    · split
      · split
        · exact ⟨fun _ => rfl, fun pr h => absurd h (by simp)⟩
        · exact ⟨fun h => (tryCids_spec b "fuzzy_search" _ stats).1 h,
                 fun pr h => (tryCids_spec b "fuzzy_search" _ stats).2 pr h⟩
      · exact ⟨fun _ => rfl, fun pr h => absurd h (by simp)⟩
  · exact ⟨fun _ => rfl, fun pr h => absurd h (by simp)⟩

theorem strat5Var_spec (b : Backend) (stats : Stats) (v : String) :
    ((strat5Var b stats v).1 = none → (strat5Var b stats v).2.1 = stats) ∧
    (∀ pr, (strat5Var b stats v).1 = some pr →
      statsSum (strat5Var b stats v).2.1 = statsSum stats + 1 ∧
      validate_smiles pr.1 = true) := by
  unfold strat5Var
  split
  · split
    next sm hsm =>
      refine ⟨fun h => absurd h (by simp), fun pr h => ?_⟩
      simp only [Option.some.injEq] at h
      subst h
      exact ⟨statsSum_statInc stats "post_request", extract_valid _ _ hsm⟩
    next hsm => exact ⟨fun _ => rfl, fun pr h => absurd h (by simp)⟩
  · exact ⟨fun _ => rfl, fun pr h => absurd h (by simp)⟩

theorem stratLoop_spec (sn fm : String)
    (f : Stats → String → Option (String × String) × Stats × List Call)
    (hf : ∀ stats v,
      ((f stats v).1 = none → (f stats v).2.1 = stats) ∧
      (∀ pr, (f stats v).1 = some pr →
        statsSum (f stats v).2.1 = statsSum stats + 1 ∧ validate_smiles pr.1 = true)) :
    ∀ (vs : List String) (stats : Stats),
      ((stratLoop sn f fm stats vs).smiles = none →
        (stratLoop sn f fm stats vs).stats = stats ∧
        (stratLoop sn f fm stats vs).attempts = vs.map (fun v => (sn, v))) ∧
      (∀ s, (stratLoop sn f fm stats vs).smiles = some s →
        statsSum (stratLoop sn f fm stats vs).stats = statsSum stats + 1 ∧
        validate_smiles s = true) ∧
      isHeadSeg (stratLoop sn f fm stats vs).attempts (vs.map (fun v => (sn, v))) := by
  intro vs
  induction vs with
  | nil =>
    intro stats
    exact ⟨fun _ => ⟨rfl, rfl⟩, fun s h => absurd h (by simp [stratLoop]),
           isHeadSeg_nil _⟩
  | cons v vs ih =>
    intro stats
    have hfv := hf stats v
    cases hr : (f stats v).1 with
    | some pr =>
      have hred : stratLoop sn f fm stats (v :: vs) =
          ⟨some pr.1, pr.2, (f stats v).2.1, (f stats v).2.2, [(sn, v)]⟩ := by
        conv_lhs => unfold stratLoop
        rw [hr]
      rw [hred]
      refine ⟨fun h => absurd h (by simp), fun s h => ?_, ?_⟩
      · simp only [Option.some.injEq] at h
        rw [← h]
        exact hfv.2 pr hr
      · exact ⟨vs.map (fun v => (sn, v)), by simp⟩
    | none =>
      have hst : (f stats v).2.1 = stats := hfv.1 hr
      have hred : stratLoop sn f fm stats (v :: vs) =
          ⟨(stratLoop sn f fm stats vs).smiles, (stratLoop sn f fm stats vs).method,
           (stratLoop sn f fm stats vs).stats,
           (f stats v).2.2 ++ (stratLoop sn f fm stats vs).calls,
           (sn, v) :: (stratLoop sn f fm stats vs).attempts⟩ := by
        conv_lhs => unfold stratLoop
        rw [hr, hst]
      rw [hred]
      obtain ⟨ih1, ih2, ih3⟩ := ih stats
      refine ⟨fun h => ⟨(ih1 h).1, ?_⟩, fun s h => ih2 s h, ?_⟩
      · simp [List.map_cons, (ih1 h).2]
      · exact isHeadSeg_cons _ ih3

theorem strategy1_spec (ef : Bool) (b : Backend) (name : String) (stats : Stats) :
    ((search_strategy_1_name_direct ef b stats name).smiles = none →
      (search_strategy_1_name_direct ef b stats name).stats = stats ∧
      (search_strategy_1_name_direct ef b stats name).attempts =
        (clean_compound_name name).map (fun v => ("name_direct", v))) ∧
    (∀ s, (search_strategy_1_name_direct ef b stats name).smiles = some s →
      statsSum (search_strategy_1_name_direct ef b stats name).stats = statsSum stats + 1 ∧
      validate_smiles s = true) ∧
    isHeadSeg (search_strategy_1_name_direct ef b stats name).attempts
      ((clean_compound_name name).map (fun v => ("name_direct", v))) :=
  stratLoop_spec "name_direct" "strategy_1_failed" (strat1Var b)
    (fun stats v => strat1Var_spec b stats v) (clean_compound_name name) stats

theorem strategy2_spec (ef : Bool) (b : Backend) (name : String) (stats : Stats) :
    ((search_strategy_2_cid_based ef b stats name).smiles = none →
      (search_strategy_2_cid_based ef b stats name).stats = stats ∧
      (search_strategy_2_cid_based ef b stats name).attempts =
        (clean_compound_name name).map (fun v => ("cid_based", v))) ∧
    (∀ s, (search_strategy_2_cid_based ef b stats name).smiles = some s →
      statsSum (search_strategy_2_cid_based ef b stats name).stats = statsSum stats + 1 ∧
      validate_smiles s = true) ∧
    isHeadSeg (search_strategy_2_cid_based ef b stats name).attempts
      ((clean_compound_name name).map (fun v => ("cid_based", v))) :=
  stratLoop_spec "cid_based" "strategy_2_failed" (strat2Var b)
    (fun stats v => strat2Var_spec b stats v) (clean_compound_name name) stats

theorem strategy3_spec (ef : Bool) (b : Backend) (name : String) (stats : Stats) :
    ((search_strategy_3_synonym_based ef b stats name).smiles = none →
      (search_strategy_3_synonym_based ef b stats name).stats = stats ∧
      (search_strategy_3_synonym_based ef b stats name).attempts =
        (clean_compound_name name).map (fun v => ("synonym_based", v))) ∧
    (∀ s, (search_strategy_3_synonym_based ef b stats name).smiles = some s →
      statsSum (search_strategy_3_synonym_based ef b stats name).stats = statsSum stats + 1 ∧
      validate_smiles s = true) ∧
    isHeadSeg (search_strategy_3_synonym_based ef b stats name).attempts
      ((clean_compound_name name).map (fun v => ("synonym_based", v))) :=
  stratLoop_spec "synonym_based" "strategy_3_failed" (strat3Var b)
    (fun stats v => strat3Var_spec b stats v) (clean_compound_name name) stats

theorem strategy5_spec (ef : Bool) (b : Backend) (name : String) (stats : Stats) :
    ((search_strategy_5_post_request ef b stats name).smiles = none →
      (search_strategy_5_post_request ef b stats name).stats = stats ∧
      (search_strategy_5_post_request ef b stats name).attempts =
        (clean_compound_name name).map (fun v => ("post_request", v))) ∧
    (∀ s, (search_strategy_5_post_request ef b stats name).smiles = some s →
      statsSum (search_strategy_5_post_request ef b stats name).stats = statsSum stats + 1 ∧
      validate_smiles s = true) ∧
    isHeadSeg (search_strategy_5_post_request ef b stats name).attempts
      ((clean_compound_name name).map (fun v => ("post_request", v))) :=
  stratLoop_spec "post_request" "strategy_5_failed" (strat5Var b)
    (fun stats v => strat5Var_spec b stats v) (clean_compound_name name) stats

theorem strategy4_spec_enabled (b : Backend) (name : String) (stats : Stats) :
    ((search_strategy_4_fuzzy_search true b stats name).smiles = none →
      (search_strategy_4_fuzzy_search true b stats name).stats = stats ∧
      (search_strategy_4_fuzzy_search true b stats name).attempts =
        (clean_compound_name name).map (fun v => ("fuzzy_search", v))) ∧
    (∀ s, (search_strategy_4_fuzzy_search true b stats name).smiles = some s →
      statsSum (search_strategy_4_fuzzy_search true b stats name).stats = statsSum stats + 1 ∧
      validate_smiles s = true) ∧
    isHeadSeg (search_strategy_4_fuzzy_search true b stats name).attempts
      ((clean_compound_name name).map (fun v => ("fuzzy_search", v))) :=
  stratLoop_spec "fuzzy_search" "strategy_4_failed" (strat4Var b)
    (fun stats v => strat4Var_spec b stats v) (clean_compound_name name) stats

theorem strategy4_stats_valid (ef : Bool) (b : Backend) (name : String) (stats : Stats) :
    ((search_strategy_4_fuzzy_search ef b stats name).smiles = none →
      (search_strategy_4_fuzzy_search ef b stats name).stats = stats) ∧
    (∀ s, (search_strategy_4_fuzzy_search ef b stats name).smiles = some s →
      statsSum (search_strategy_4_fuzzy_search ef b stats name).stats = statsSum stats + 1 ∧
      validate_smiles s = true) := by
  cases ef with
  | true =>
    exact ⟨fun h => ((strategy4_spec_enabled b name stats).1 h).1,
           fun s h => (strategy4_spec_enabled b name stats).2.1 s h⟩
  | false =>
    exact ⟨fun _ => rfl, fun s h => absurd h (by simp [search_strategy_4_fuzzy_search])⟩

theorem runStrategies_stats_valid (ef : Bool) (b : Backend) (name : String) :
    ∀ (gs : List (Bool → Backend → Stats → String → StratRes)),
      (∀ g ∈ gs, ∀ stats : Stats,
        ((g ef b stats name).smiles = none → (g ef b stats name).stats = stats) ∧
        (∀ s, (g ef b stats name).smiles = some s →
          statsSum (g ef b stats name).stats = statsSum stats + 1 ∧
          validate_smiles s = true)) →
      ∀ stats : Stats,
        ((runStrategies ef b name stats gs).smiles = none →
          (runStrategies ef b name stats gs).stats = stats) ∧
        (∀ s, (runStrategies ef b name stats gs).smiles = some s →
          statsSum (runStrategies ef b name stats gs).stats = statsSum stats + 1 ∧
          validate_smiles s = true) := by
  intro gs
  induction gs with
  | nil =>
    intro _ stats
    exact ⟨fun _ => rfl, fun s h => absurd h (by simp [runStrategies])⟩
  | cons g gs ih =>
    intro hall stats
    have hg := hall g (by simp) stats
    have hrest := ih (fun g' hg' => hall g' (by simp [hg']))
    cases hr : (g ef b stats name).smiles with
    | some s0 =>
      have hred : runStrategies ef b name stats (g :: gs) = g ef b stats name := by
        conv_lhs => unfold runStrategies
        rw [hr]
      rw [hred]
      refine ⟨fun h => ?_, fun s h => hg.2 s h⟩
      rw [hr] at h
      exact absurd h (by simp)
    | none =>
      have hst : (g ef b stats name).stats = stats := hg.1 hr
      have hred : runStrategies ef b name stats (g :: gs) =
          ⟨(runStrategies ef b name stats gs).smiles,
           (runStrategies ef b name stats gs).method,
           (runStrategies ef b name stats gs).stats,
           (g ef b stats name).calls ++ (runStrategies ef b name stats gs).calls,
           (g ef b stats name).attempts ++ (runStrategies ef b name stats gs).attempts⟩ := by
        conv_lhs => unfold runStrategies
        rw [hr, hst]
      rw [hred]
      exact ⟨fun h => (hrest stats).1 h, fun s h => (hrest stats).2 s h⟩

theorem runStrategies_attempts (ef : Bool) (b : Backend) (name : String)
    (gs : List (Bool → Backend → Stats → String → StratRes)) (sns : List String)
    (hall : List.Forall₂ (fun g sn => ∀ stats : Stats,
      isHeadSeg (g ef b stats name).attempts
        ((clean_compound_name name).map (fun v => (sn, v))) ∧
      ((g ef b stats name).smiles = none →
        (g ef b stats name).attempts =
          (clean_compound_name name).map (fun v => (sn, v)))) gs sns) :
    ∀ stats : Stats,
      isHeadSeg (runStrategies ef b name stats gs).attempts (pairsFor name sns) ∧
      ((runStrategies ef b name stats gs).smiles = none →
        (runStrategies ef b name stats gs).attempts = pairsFor name sns) := by
  induction hall with
  | nil =>
    intro stats
    exact ⟨isHeadSeg_nil _, fun _ => rfl⟩
  | cons hg hrest ih =>
    intro stats
    next g sn gs' sns' =>
    have hpf : pairsFor name (sn :: sns') =
        (clean_compound_name name).map (fun v => (sn, v)) ++ pairsFor name sns' := by
      simp [pairsFor]
    cases hr : (g ef b stats name).smiles with
    | some s0 =>
      have hred : runStrategies ef b name stats (g :: gs') = g ef b stats name := by
        conv_lhs => unfold runStrategies
        rw [hr]
      rw [hred, hpf]
      refine ⟨isHeadSeg_extend _ ((hg stats).1), fun h => ?_⟩
      rw [hr] at h
      exact absurd h (by simp)
    | none =>
      have hred : runStrategies ef b name stats (g :: gs') =
          ⟨(runStrategies ef b name ((g ef b stats name).stats) gs').smiles,
           (runStrategies ef b name ((g ef b stats name).stats) gs').method,
           (runStrategies ef b name ((g ef b stats name).stats) gs').stats,
           (g ef b stats name).calls ++
             (runStrategies ef b name ((g ef b stats name).stats) gs').calls,
           (g ef b stats name).attempts ++
             (runStrategies ef b name ((g ef b stats name).stats) gs').attempts⟩ := by
        conv_lhs => unfold runStrategies
        rw [hr]
      rw [hred, hpf, (hg stats).2 hr]
      obtain ⟨ihseg, iheq⟩ := ih ((g ef b stats name).stats)
      exact ⟨isHeadSeg_append_left _ ihseg, fun h => by rw [iheq h]⟩

theorem strategies_stats_valid (ef : Bool) (b : Backend) (name : String) :
    ∀ g ∈ strategies, ∀ stats : Stats,
      ((g ef b stats name).smiles = none → (g ef b stats name).stats = stats) ∧
      (∀ s, (g ef b stats name).smiles = some s →
        statsSum (g ef b stats name).stats = statsSum stats + 1 ∧
        validate_smiles s = true) := by
  intro g hg stats
  simp only [strategies, List.mem_cons, List.not_mem_nil, or_false] at hg
  rcases hg with rfl | rfl | rfl | rfl | rfl
  · exact ⟨fun h => ((strategy1_spec ef b name stats).1 h).1,
           (strategy1_spec ef b name stats).2.1⟩
  · exact ⟨fun h => ((strategy2_spec ef b name stats).1 h).1,
           (strategy2_spec ef b name stats).2.1⟩
  · exact ⟨fun h => ((strategy3_spec ef b name stats).1 h).1,
           (strategy3_spec ef b name stats).2.1⟩
  · exact ⟨fun h => ((strategy5_spec ef b name stats).1 h).1,
           (strategy5_spec ef b name stats).2.1⟩
  · exact ⟨(strategy4_stats_valid ef b name stats).1,
           (strategy4_stats_valid ef b name stats).2⟩

theorem cascade_cached (ef : Bool) (b : Backend) (st : CState) (name s : String)
    (h : cacheGet st.cache name = some s) :
    comprehensive_smiles_search ef b st name = ⟨name, some s, "cached", st, [], []⟩ := by
  conv_lhs => unfold comprehensive_smiles_search
  rw [h]

theorem cascade_failedreg (ef : Bool) (b : Backend) (st : CState) (name : String)
    (h1 : cacheGet st.cache name = none) (h2 : memb st.failed_compounds name = true) :
    comprehensive_smiles_search ef b st name =
      ⟨name, none, "permanently_failed", st, [], []⟩ := by
  conv_lhs => unfold comprehensive_smiles_search
  rw [h1, h2]
  rfl

theorem cascade_fresh_some (ef : Bool) (b : Backend) (st : CState) (name s : String)
    (h1 : cacheGet st.cache name = none) (h2 : memb st.failed_compounds name = false)
    (hr : (runStrategies ef b name st.strategy_stats strategies).smiles = some s) :
    comprehensive_smiles_search ef b st name =
      ⟨name, some s, (runStrategies ef b name st.strategy_stats strategies).method,
       ⟨(name, s) :: st.cache, st.failed_compounds,
        (runStrategies ef b name st.strategy_stats strategies).stats⟩,
       (runStrategies ef b name st.strategy_stats strategies).calls,
       (runStrategies ef b name st.strategy_stats strategies).attempts⟩ := by
  conv_lhs => unfold comprehensive_smiles_search
  rw [h1, h2, hr]
  rfl

theorem cascade_fresh_none (ef : Bool) (b : Backend) (st : CState) (name : String)
    (h1 : cacheGet st.cache name = none) (h2 : memb st.failed_compounds name = false)
    (hr : (runStrategies ef b name st.strategy_stats strategies).smiles = none) :
    comprehensive_smiles_search ef b st name =
      ⟨name, none, "all_strategies_failed",
       ⟨st.cache, name :: st.failed_compounds,
        (runStrategies ef b name st.strategy_stats strategies).stats⟩,
       (runStrategies ef b name st.strategy_stats strategies).calls,
       (runStrategies ef b name st.strategy_stats strategies).attempts⟩ := by
  conv_lhs => unfold comprehensive_smiles_search
  rw [h1, h2, hr]
  rfl

theorem cascadeFresh (ef : Bool) (b : Backend) (st : CState) (name : String)
    (h1 : cacheGet st.cache name = none) (h2 : memb st.failed_compounds name = false) :
    ((comprehensive_smiles_search ef b st name).smiles = none →
      (comprehensive_smiles_search ef b st name).state.cache = st.cache ∧
      (comprehensive_smiles_search ef b st name).state.failed_compounds =
        name :: st.failed_compounds ∧
      statsSum (comprehensive_smiles_search ef b st name).state.strategy_stats =
        statsSum st.strategy_stats) ∧
    (∀ s, (comprehensive_smiles_search ef b st name).smiles = some s →
      (comprehensive_smiles_search ef b st name).state.cache = (name, s) :: st.cache ∧
      (comprehensive_smiles_search ef b st name).state.failed_compounds =
        st.failed_compounds ∧
      statsSum (comprehensive_smiles_search ef b st name).state.strategy_stats =
        statsSum st.strategy_stats + 1 ∧
      validate_smiles s = true) := by
  have hrun := runStrategies_stats_valid ef b name strategies
    (strategies_stats_valid ef b name) st.strategy_stats
  cases hr : (runStrategies ef b name st.strategy_stats strategies).smiles with
  | some s =>
    rw [cascade_fresh_some ef b st name s h1 h2 hr]
    refine ⟨fun h => absurd h (by simp), fun s' h => ?_⟩
    simp only [Option.some.injEq] at h
    rw [← h]
    exact ⟨rfl, rfl, (hrun.2 s hr).1, (hrun.2 s hr).2⟩
  | none =>
    rw [cascade_fresh_none ef b st name h1 h2 hr]
    refine ⟨fun _ => ⟨rfl, rfl, ?_⟩, fun s h => absurd h (by simp)⟩
    show statsSum (runStrategies ef b name st.strategy_stats strategies).stats = _
    rw [hrun.1 hr]

theorem cascade_some_cache (ef : Bool) (b : Backend) (st : CState) (name s : String)
    (h : (comprehensive_smiles_search ef b st name).smiles = some s) :
    cacheGet (comprehensive_smiles_search ef b st name).state.cache name = some s := by
  cases hc : cacheGet st.cache name with
  | some s0 =>
    rw [cascade_cached ef b st name s0 hc] at h ⊢
    simp only [Option.some.injEq] at h
    rw [← h]
    exact hc
  | none =>
    cases hm : memb st.failed_compounds name with
    | true =>
      rw [cascade_failedreg ef b st name hc hm] at h
      exact absurd h (by simp)
    | false =>
      cases hr : (runStrategies ef b name st.strategy_stats strategies).smiles with
      | some s1 =>
        rw [cascade_fresh_some ef b st name s1 hc hm hr] at h ⊢
        simp only [Option.some.injEq] at h
        simp [cacheGet, h]
      | none =>
        rw [cascade_fresh_none ef b st name hc hm hr] at h
        exact absurd h (by simp)

theorem cascade_none_state (ef : Bool) (b : Backend) (st : CState) (name : String)
    (h : (comprehensive_smiles_search ef b st name).smiles = none) :
    cacheGet (comprehensive_smiles_search ef b st name).state.cache name = none ∧
    memb (comprehensive_smiles_search ef b st name).state.failed_compounds name = true := by
  cases hc : cacheGet st.cache name with
  | some s0 =>
    rw [cascade_cached ef b st name s0 hc] at h
    exact absurd h (by simp)
  | none =>
    cases hm : memb st.failed_compounds name with
    | true =>
      rw [cascade_failedreg ef b st name hc hm]
      exact ⟨hc, hm⟩
    | false =>
      cases hr : (runStrategies ef b name st.strategy_stats strategies).smiles with
      | some s1 =>
        rw [cascade_fresh_some ef b st name s1 hc hm hr] at h
        exact absurd h (by simp)
      | none =>
        rw [cascade_fresh_none ef b st name hc hm hr]
        exact ⟨hc, by simp [memb]⟩

theorem asyncCount (ef : Bool) (b : Backend) :
    ∀ (names : List String) (rs : RunState),
      names.Nodup →
      (∀ n ∈ names, cacheGet rs.cstate.cache n = none ∧
        memb rs.cstate.failed_compounds n = false) →
      (async_process_compounds ef b rs names).2.success_count +
          (async_process_compounds ef b rs names).2.cstate.failed_compounds.length =
        rs.success_count + rs.cstate.failed_compounds.length + names.length ∧
      (async_process_compounds ef b rs names).2.success_count +
          statsSum rs.cstate.strategy_stats =
        rs.success_count +
          statsSum (async_process_compounds ef b rs names).2.cstate.strategy_stats := by
  intro names
  induction names with
  | nil =>
    intro rs _ _
    simp [async_process_compounds]
  | cons c cs ih =>
    intro rs hnd hfresh
    rw [List.nodup_cons] at hnd
    have hcfresh := hfresh c (by simp)
    have hcas := cascadeFresh ef b rs.cstate c hcfresh.1 hcfresh.2
    have hred : async_process_compounds ef b rs (c :: cs) =
        (((comprehensive_smiles_search ef b rs.cstate c).name,
          (comprehensive_smiles_search ef b rs.cstate c).smiles) ::
           (async_process_compounds ef b
             (update_progress
               ⟨(comprehensive_smiles_search ef b rs.cstate c).state,
                rs.processed_count, rs.success_count⟩
               (comprehensive_smiles_search ef b rs.cstate c).smiles.isSome) cs).1,
         (async_process_compounds ef b
           (update_progress
             ⟨(comprehensive_smiles_search ef b rs.cstate c).state,
              rs.processed_count, rs.success_count⟩
             (comprehensive_smiles_search ef b rs.cstate c).smiles.isSome) cs).2) := by
      conv_lhs => unfold async_process_compounds
    rw [hred]
    dsimp only
    cases hr : (comprehensive_smiles_search ef b rs.cstate c).smiles with
    | some s =>
      obtain ⟨hcache, hfail, hsum, _⟩ := hcas.2 s hr
      simp only [Option.isSome_some]
      have hfresh' : ∀ n ∈ cs,
          cacheGet (update_progress
            ⟨(comprehensive_smiles_search ef b rs.cstate c).state,
             rs.processed_count, rs.success_count⟩ true).cstate.cache n = none ∧
          memb (update_progress
            ⟨(comprehensive_smiles_search ef b rs.cstate c).state,
             rs.processed_count, rs.success_count⟩ true).cstate.failed_compounds n = false := by
        intro n hn
        have hne : ¬ c = n := fun e => absurd (e ▸ hn) hnd.1
        simp only [update_progress]
        rw [hcache, hfail]
        simp only [cacheGet, if_neg hne]
        exact hfresh n (by simp [hn])
      have key := ih (update_progress
        ⟨(comprehensive_smiles_search ef b rs.cstate c).state,
         rs.processed_count, rs.success_count⟩ true) hnd.2 hfresh'
      simp only [update_progress, reduceIte] at key ⊢
      rw [hfail] at key
      rw [hsum] at key
      simp only [List.length_cons]
      omega
    | none =>
      obtain ⟨hcache, hfail, hsum⟩ := hcas.1 hr
      simp only [Option.isSome_none]
      have hfresh' : ∀ n ∈ cs,
          cacheGet (update_progress
            ⟨(comprehensive_smiles_search ef b rs.cstate c).state,
             rs.processed_count, rs.success_count⟩ false).cstate.cache n = none ∧
          memb (update_progress
            ⟨(comprehensive_smiles_search ef b rs.cstate c).state,
             rs.processed_count, rs.success_count⟩ false).cstate.failed_compounds n = false := by
        intro n hn
        have hne : ¬ c = n := fun e => absurd (e ▸ hn) hnd.1
        simp only [update_progress]
        rw [hcache, hfail]
        simp only [memb, if_neg hne]
        exact hfresh n (by simp [hn])
      have key := ih (update_progress
        ⟨(comprehensive_smiles_search ef b rs.cstate c).state,
         rs.processed_count, rs.success_count⟩ false) hnd.2 hfresh'
      simp only [update_progress, Bool.false_eq_true, if_false] at key ⊢
      rw [hfail] at key
      rw [hsum] at key
      simp only [List.length_cons] at key ⊢
      omega

theorem syncCid_spec (b : Backend) (stats : Stats) (v : String) :
    ((syncCid b stats v).1 = none → (syncCid b stats v).2.1 = stats) ∧
    (∀ pr, (syncCid b stats v).1 = some pr →
      statsSum (syncCid b stats v).2.1 = statsSum stats + 1 ∧
      validate_smiles pr.1 = true) := by
  unfold syncCid
  split
  · split
    · split
      · exact ⟨fun h => (tryCids_spec b "sync_cid_based" _ stats).1 h,
               fun pr h => (tryCids_spec b "sync_cid_based" _ stats).2 pr h⟩
      · exact ⟨fun _ => rfl, fun pr h => absurd h (by simp)⟩
    · exact ⟨fun _ => rfl, fun pr h => absurd h (by simp)⟩
  · exact ⟨fun _ => rfl, fun pr h => absurd h (by simp)⟩

theorem syncVars_spec (b : Backend) :
    ∀ (vs : List String) (stats : Stats),
      ((syncVars b stats vs).1 = none → (syncVars b stats vs).2.1 = stats) ∧
      (∀ pr, (syncVars b stats vs).1 = some pr →
        statsSum (syncVars b stats vs).2.1 = statsSum stats + 1 ∧
        validate_smiles pr.1 = true) := by
  intro vs
  induction vs with
  | nil =>
    intro stats
    exact ⟨fun _ => rfl, fun pr h => absurd h (by simp [syncVars])⟩
  | cons v vs ih =>
    intro stats
    cases hd : (b.getNameProperty v).bind extract with
    | some sm =>
      have hred : syncVars b stats (v :: vs) =
          (some (sm, "sync_name_direct:" ++ v), statInc stats "sync_name_direct",
           [.getNameProperty v]) := by
        conv_lhs => unfold syncVars
        rw [hd]
      rw [hred]
      refine ⟨fun h => absurd h (by simp), fun pr h => ?_⟩
      simp only [Option.some.injEq] at h
      rw [← h]
      have hv : validate_smiles sm = true := by
        rcases Option.bind_eq_some.mp hd with ⟨data, _, he⟩
        exact extract_valid data sm he
      exact ⟨statsSum_statInc stats "sync_name_direct", hv⟩
    | none =>
      cases hcid : (syncCid b stats v).1 with
      | some pr0 =>
        have hred : syncVars b stats (v :: vs) =
            (some pr0, (syncCid b stats v).2.1,
             .getNameProperty v :: (syncCid b stats v).2.2) := by
          conv_lhs => unfold syncVars
          rw [hd, hcid]
        rw [hred]
        refine ⟨fun h => absurd h (by simp), fun pr h => ?_⟩
        simp only [Option.some.injEq] at h
        rw [← h]
        exact (syncCid_spec b stats v).2 pr0 hcid
      | none =>
        have hst : (syncCid b stats v).2.1 = stats := (syncCid_spec b stats v).1 hcid
        have hred : syncVars b stats (v :: vs) =
            ((syncVars b stats vs).1, (syncVars b stats vs).2.1,
             .getNameProperty v :: (syncCid b stats v).2.2 ++
               (syncVars b stats vs).2.2) := by
          conv_lhs => unfold syncVars
          rw [hd, hcid, hst]
        rw [hred]
        exact ⟨fun h => (ih stats).1 h, fun pr h => (ih stats).2 pr h⟩

theorem sync_cached (b : Backend) (st : CState) (name s : String)
    (h : cacheGet st.cache name = some s) :
    sync_comprehensive_search b st name = ⟨name, some s, "cached", st, [], []⟩ := by
  conv_lhs => unfold sync_comprehensive_search
  rw [h]

theorem sync_failedreg (b : Backend) (st : CState) (name : String)
    (h1 : cacheGet st.cache name = none) (h2 : memb st.failed_compounds name = true) :
    sync_comprehensive_search b st name =
      ⟨name, none, "permanently_failed", st, [], []⟩ := by
  conv_lhs => unfold sync_comprehensive_search
  rw [h1, h2]
  rfl

theorem sync_fresh_some (b : Backend) (st : CState) (name : String) (pr : String × String)
    (h1 : cacheGet st.cache name = none) (h2 : memb st.failed_compounds name = false)
    (hr : (syncVars b st.strategy_stats (clean_compound_name name)).1 = some pr) :
    sync_comprehensive_search b st name =
      ⟨name, some pr.1, pr.2,
       ⟨(name, pr.1) :: st.cache, st.failed_compounds,
        (syncVars b st.strategy_stats (clean_compound_name name)).2.1⟩,
       (syncVars b st.strategy_stats (clean_compound_name name)).2.2, []⟩ := by
  conv_lhs => unfold sync_comprehensive_search
  rw [h1, h2, hr]
  rfl

theorem sync_fresh_none (b : Backend) (st : CState) (name : String)
    (h1 : cacheGet st.cache name = none) (h2 : memb st.failed_compounds name = false)
    (hr : (syncVars b st.strategy_stats (clean_compound_name name)).1 = none) :
    sync_comprehensive_search b st name =
      ⟨name, none, "sync_all_failed",
       ⟨st.cache, name :: st.failed_compounds,
        (syncVars b st.strategy_stats (clean_compound_name name)).2.1⟩,
       (syncVars b st.strategy_stats (clean_compound_name name)).2.2, []⟩ := by
  conv_lhs => unfold sync_comprehensive_search
  rw [h1, h2, hr]
  rfl

theorem cascade_cacheOK (ef : Bool) (b : Backend) (st : CState) (name : String)
    (h : cacheOK st.cache = true) :
    cacheOK (comprehensive_smiles_search ef b st name).state.cache = true := by
  cases hc : cacheGet st.cache name with
  | some s0 =>
    rw [cascade_cached ef b st name s0 hc]
    exact h
  | none =>
    cases hm : memb st.failed_compounds name with
    | true =>
      rw [cascade_failedreg ef b st name hc hm]
      exact h
    | false =>
      cases hr : (runStrategies ef b name st.strategy_stats strategies).smiles with
      | some s1 =>
        rw [cascade_fresh_some ef b st name s1 hc hm hr]
        have hval : validate_smiles s1 = true :=
          ((runStrategies_stats_valid ef b name strategies
            (strategies_stats_valid ef b name) st.strategy_stats).2 s1 hr).2
        simp only [cacheOK, List.all_cons, hval, Bool.true_and]
        exact h
      | none =>
        rw [cascade_fresh_none ef b st name hc hm hr]
        exact h

theorem sync_cascade_cacheOK (b : Backend) (st : CState) (name : String)
    (h : cacheOK st.cache = true) :
    cacheOK (sync_comprehensive_search b st name).state.cache = true := by
  cases hc : cacheGet st.cache name with
  | some s0 =>
    rw [sync_cached b st name s0 hc]
    exact h
  | none =>
    cases hm : memb st.failed_compounds name with
    | true =>
      rw [sync_failedreg b st name hc hm]
      exact h
    | false =>
      cases hr : (syncVars b st.strategy_stats (clean_compound_name name)).1 with
      | some pr =>
        rw [sync_fresh_some b st name pr hc hm hr]
        have hval : validate_smiles pr.1 = true :=
          ((syncVars_spec b (clean_compound_name name) st.strategy_stats).2 pr hr).2
        simp only [cacheOK, List.all_cons, hval, Bool.true_and]
        exact h
      | none =>
        rw [sync_fresh_none b st name hc hm hr]
        exact h

theorem asyncProcess_cacheOK (ef : Bool) (b : Backend) :
    ∀ (names : List String) (rs : RunState), cacheOK rs.cstate.cache = true →
      cacheOK (async_process_compounds ef b rs names).2.cstate.cache = true := by
  intro names
  induction names with
  | nil =>
    intro rs h
    exact h
  | cons c cs ih =>
    intro rs h
    have hred : (async_process_compounds ef b rs (c :: cs)).2 =
        (async_process_compounds ef b
          (update_progress
            ⟨(comprehensive_smiles_search ef b rs.cstate c).state,
             rs.processed_count, rs.success_count⟩
            (comprehensive_smiles_search ef b rs.cstate c).smiles.isSome) cs).2 := by
      conv_lhs => unfold async_process_compounds
    rw [hred]
    exact ih _ (cascade_cacheOK ef b rs.cstate c h)

theorem syncProcess_cacheOK (b : Backend) :
    ∀ (names : List String) (rs : RunState), cacheOK rs.cstate.cache = true →
      cacheOK (sync_process_compounds b rs names).2.cstate.cache = true := by
  intro names
  induction names with
  | nil =>
    intro rs h
    exact h
  | cons c cs ih =>
    intro rs h
    have hred : (sync_process_compounds b rs (c :: cs)).2 =
        (sync_process_compounds b
          (update_progress
            ⟨(sync_comprehensive_search b rs.cstate c).state,
             rs.processed_count, rs.success_count⟩
            (sync_comprehensive_search b rs.cstate c).smiles.isSome) cs).2 := by
      conv_lhs => unfold sync_process_compounds
    rw [hred]
    exact ih _ (sync_cascade_cacheOK b rs.cstate c h)

theorem stratLoop_allmiss (sn fm : String)
    (f : Stats → String → Option (String × String) × Stats × List Call)
    (hf : ∀ stats v, (f stats v).1 = none ∧ (f stats v).2.1 = stats) :
    ∀ (vs : List String) (stats : Stats),
      (stratLoop sn f fm stats vs).smiles = none ∧
      (stratLoop sn f fm stats vs).stats = stats := by
  intro vs
  induction vs with
  | nil => intro stats; exact ⟨rfl, rfl⟩
  | cons v vs ih =>
    intro stats
    have hred : stratLoop sn f fm stats (v :: vs) =
        ⟨(stratLoop sn f fm stats vs).smiles, (stratLoop sn f fm stats vs).method,
         (stratLoop sn f fm stats vs).stats,
         (f stats v).2.2 ++ (stratLoop sn f fm stats vs).calls,
         (sn, v) :: (stratLoop sn f fm stats vs).attempts⟩ := by
      conv_lhs => unfold stratLoop
      rw [(hf stats v).1, (hf stats v).2]
    rw [hred]
    exact ih stats

theorem runStrategies_allmiss (ef : Bool) (b : Backend) (name : String) :
    ∀ (gs : List (Bool → Backend → Stats → String → StratRes)),
      (∀ g ∈ gs, ∀ stats : Stats,
        (g ef b stats name).smiles = none ∧ (g ef b stats name).stats = stats) →
      ∀ stats : Stats, (runStrategies ef b name stats gs).smiles = none := by
  intro gs
  induction gs with
  | nil => intro _ stats; rfl
  | cons g gs ih =>
    intro hall stats
    have hg := hall g (by simp) stats
    have hred : runStrategies ef b name stats (g :: gs) =
        ⟨(runStrategies ef b name stats gs).smiles,
         (runStrategies ef b name stats gs).method,
         (runStrategies ef b name stats gs).stats,
         (g ef b stats name).calls ++ (runStrategies ef b name stats gs).calls,
         (g ef b stats name).attempts ++ (runStrategies ef b name stats gs).attempts⟩ := by
      conv_lhs => unfold runStrategies
      rw [hg.1, hg.2]
    rw [hred]
    exact ih (fun g' hg' => hall g' (by simp [hg'])) stats

theorem strat2Var_miss (b : Backend) (H1 : ∀ v, b.getNameCids v = none)
    (stats : Stats) (v : String) :
    (strat2Var b stats v).1 = none ∧ (strat2Var b stats v).2.1 = stats := by
  unfold strat2Var
  rw [H1 v]
  exact ⟨rfl, rfl⟩

theorem strat3Var_miss (b : Backend) (H2 : ∀ v, b.getNameSynonyms v = none)
    (stats : Stats) (v : String) :
    (strat3Var b stats v).1 = none ∧ (strat3Var b stats v).2.1 = stats := by
  unfold strat3Var
  rw [H2 v]
  exact ⟨rfl, rfl⟩

theorem strat4Var_miss (b : Backend) (H1 : ∀ v, b.getNameCids v = none)
    (stats : Stats) (v : String) :
    (strat4Var b stats v).1 = none ∧ (strat4Var b stats v).2.1 = stats := by
  unfold strat4Var
  rw [H1 (v ++ "*")]
  exact ⟨rfl, rfl⟩

theorem strat5Var_miss (b : Backend) (H3 : ∀ v, b.postNameProperty v = none)
    (stats : Stats) (v : String) :
    (strat5Var b stats v).1 = none ∧ (strat5Var b stats v).2.1 = stats := by
  unfold strat5Var
  rw [H3 v]
  exact ⟨rfl, rfl⟩

theorem runStrategies_cons_some (ef : Bool) (b : Backend) (name : String)
    (stats : Stats) (g : Bool → Backend → Stats → String → StratRes)
    (gs : List (Bool → Backend → Stats → String → StratRes)) (s : String)
    (hr : (g ef b stats name).smiles = some s) :
    runStrategies ef b name stats (g :: gs) = g ef b stats name := by
  conv_lhs => unfold runStrategies
  rw [hr]

theorem runStrategies_cons_none (ef : Bool) (b : Backend) (name : String)
    (stats : Stats) (g : Bool → Backend → Stats → String → StratRes)
    (gs : List (Bool → Backend → Stats → String → StratRes))
    (hr : (g ef b stats name).smiles = none) :
    (runStrategies ef b name stats (g :: gs)).smiles =
      (runStrategies ef b name ((g ef b stats name).stats) gs).smiles := by
  have hred : runStrategies ef b name stats (g :: gs) =
      ⟨(runStrategies ef b name ((g ef b stats name).stats) gs).smiles,
       (runStrategies ef b name ((g ef b stats name).stats) gs).method,
       (runStrategies ef b name ((g ef b stats name).stats) gs).stats,
       (g ef b stats name).calls ++
         (runStrategies ef b name ((g ef b stats name).stats) gs).calls,
       (g ef b stats name).attempts ++
         (runStrategies ef b name ((g ef b stats name).stats) gs).attempts⟩ := by
    conv_lhs => unfold runStrategies
    rw [hr]
  rw [hred]

theorem runStrategies_underH (b : Backend)
    (H1 : ∀ v, b.getNameCids v = none) (H2 : ∀ v, b.getNameSynonyms v = none)
    (H3 : ∀ v, b.postNameProperty v = none) (ef : Bool) (name : String) (stats : Stats) :
    (runStrategies ef b name stats strategies).smiles =
      (search_strategy_1_name_direct ef b stats name).smiles := by
  have hmiss : ∀ g ∈ [search_strategy_2_cid_based, search_strategy_3_synonym_based,
      search_strategy_5_post_request, search_strategy_4_fuzzy_search], ∀ stats' : Stats,
      (g ef b stats' name).smiles = none ∧ (g ef b stats' name).stats = stats' := by
    intro g hg stats'
    simp only [List.mem_cons, List.not_mem_nil, or_false] at hg
    rcases hg with rfl | rfl | rfl | rfl
    · exact stratLoop_allmiss "cid_based" "strategy_2_failed" (strat2Var b)
        (strat2Var_miss b H1) (clean_compound_name name) stats'
    · exact stratLoop_allmiss "synonym_based" "strategy_3_failed" (strat3Var b)
        (strat3Var_miss b H2) (clean_compound_name name) stats'
    · exact stratLoop_allmiss "post_request" "strategy_5_failed" (strat5Var b)
        (strat5Var_miss b H3) (clean_compound_name name) stats'
    · cases ef with
      | true =>
        exact stratLoop_allmiss "fuzzy_search" "strategy_4_failed" (strat4Var b)
          (strat4Var_miss b H1) (clean_compound_name name) stats'
      | false => exact ⟨rfl, rfl⟩
  have hredL : runStrategies ef b name stats strategies =
      runStrategies ef b name stats (search_strategy_1_name_direct ::
        [search_strategy_2_cid_based, search_strategy_3_synonym_based,
         search_strategy_5_post_request, search_strategy_4_fuzzy_search]) := rfl
  cases hr : (search_strategy_1_name_direct ef b stats name).smiles with
  | some s =>
    rw [hredL, runStrategies_cons_some ef b name stats _ _ s hr]
    exact hr
  | none =>
    have hst : (search_strategy_1_name_direct ef b stats name).stats = stats :=
      ((strategy1_spec ef b name stats).1 hr).1
    rw [hredL, runStrategies_cons_none ef b name stats _ _ hr, hst,
      runStrategies_allmiss ef b name _ hmiss stats]

theorem syncVars_eq_strat1 (b : Backend) (H1 : ∀ v, b.getNameCids v = none) :
    ∀ (vs : List String) (stats : Stats),
      (syncVars b stats vs).1.map Prod.fst =
        (stratLoop "name_direct" (strat1Var b) "strategy_1_failed" stats vs).smiles := by
  intro vs
  induction vs with
  | nil => intro stats; rfl
  | cons v vs ih =>
    intro stats
    have hcid : syncCid b stats v = (none, stats, [.getNameCids v]) := by
      unfold syncCid
      rw [H1 v]
    cases hp : b.getNameProperty v with
    | some data =>
      cases he : extract data with
      | some sm =>
        have hd : (b.getNameProperty v).bind extract = some sm := by rw [hp]; exact he
        have h1 : strat1Var b stats v =
            (some (sm, "name_direct:" ++ v), statInc stats "name_direct",
             [.getNameProperty v]) := by
          unfold strat1Var
          simp only [hp, he]
        have hredA : stratLoop "name_direct" (strat1Var b) "strategy_1_failed" stats
            (v :: vs) = ⟨some sm, "name_direct:" ++ v, statInc stats "name_direct",
              [.getNameProperty v], [("name_direct", v)]⟩ := by
          conv_lhs => unfold stratLoop
          rw [h1]
        have hredS : syncVars b stats (v :: vs) =
            (some (sm, "sync_name_direct:" ++ v), statInc stats "sync_name_direct",
             [.getNameProperty v]) := by
          conv_lhs => unfold syncVars
          rw [hd]
        rw [hredA, hredS]
        rfl
      | none =>
        have hd : (b.getNameProperty v).bind extract = none := by rw [hp]; exact he
        have h1 : strat1Var b stats v = (none, stats, [.getNameProperty v]) := by
          unfold strat1Var
          simp only [hp, he]
        have hredA : stratLoop "name_direct" (strat1Var b) "strategy_1_failed" stats
            (v :: vs) = ⟨(stratLoop "name_direct" (strat1Var b) "strategy_1_failed"
                stats vs).smiles,
              (stratLoop "name_direct" (strat1Var b) "strategy_1_failed" stats vs).method,
              (stratLoop "name_direct" (strat1Var b) "strategy_1_failed" stats vs).stats,
              [.getNameProperty v] ++ (stratLoop "name_direct" (strat1Var b)
                "strategy_1_failed" stats vs).calls,
              ("name_direct", v) :: (stratLoop "name_direct" (strat1Var b)
                "strategy_1_failed" stats vs).attempts⟩ := by
          conv_lhs => unfold stratLoop
          rw [h1]
        have hredS : syncVars b stats (v :: vs) =
            ((syncVars b stats vs).1, (syncVars b stats vs).2.1,
             .getNameProperty v :: (syncCid b stats v).2.2 ++
               (syncVars b stats vs).2.2) := by
          conv_lhs => unfold syncVars
          rw [hd, hcid]
        rw [hredA, hredS]
        exact ih stats
    | none =>
      have hd : (b.getNameProperty v).bind extract = none := by rw [hp]; rfl
      have h1 : strat1Var b stats v = (none, stats, [.getNameProperty v]) := by
        unfold strat1Var
        simp only [hp]
      have hredA : stratLoop "name_direct" (strat1Var b) "strategy_1_failed" stats
          (v :: vs) = ⟨(stratLoop "name_direct" (strat1Var b) "strategy_1_failed"
              stats vs).smiles,
            (stratLoop "name_direct" (strat1Var b) "strategy_1_failed" stats vs).method,
            (stratLoop "name_direct" (strat1Var b) "strategy_1_failed" stats vs).stats,
            [.getNameProperty v] ++ (stratLoop "name_direct" (strat1Var b)
              "strategy_1_failed" stats vs).calls,
            ("name_direct", v) :: (stratLoop "name_direct" (strat1Var b)
              "strategy_1_failed" stats vs).attempts⟩ := by
        conv_lhs => unfold stratLoop
        rw [h1]
      have hredS : syncVars b stats (v :: vs) =
          ((syncVars b stats vs).1, (syncVars b stats vs).2.1,
           .getNameProperty v :: (syncCid b stats v).2.2 ++
             (syncVars b stats vs).2.2) := by
        conv_lhs => unfold syncVars
        rw [hd, hcid]
      rw [hredA, hredS]
      exact ih stats

theorem strat1Var_fst (b : Backend) (s1 s2 : Stats) (v : String) :
    (strat1Var b s1 v).1 = (strat1Var b s2 v).1 := by
  unfold strat1Var
  cases hp : b.getNameProperty v with
  | some data =>
    cases he : extract data with
    | some sm => simp [he]
    | none => simp [he]
  | none => rfl

theorem stratLoop_smiles_indep (sn fm : String)
    (f : Stats → String → Option (String × String) × Stats × List Call)
    (hf : ∀ s1 s2 v, (f s1 v).1 = (f s2 v).1) :
    ∀ (vs : List String) (s1 s2 : Stats),
      (stratLoop sn f fm s1 vs).smiles = (stratLoop sn f fm s2 vs).smiles := by
  intro vs
  induction vs with
  | nil => intro s1 s2; rfl
  | cons v vs ih =>
    intro s1 s2
    cases hr : (f s1 v).1 with
    | some pr =>
      have hr2 : (f s2 v).1 = some pr := by rw [← hf s1 s2 v]; exact hr
      have hredA : stratLoop sn f fm s1 (v :: vs) =
          ⟨some pr.1, pr.2, (f s1 v).2.1, (f s1 v).2.2, [(sn, v)]⟩ := by
        conv_lhs => unfold stratLoop
        rw [hr]
      have hredB : stratLoop sn f fm s2 (v :: vs) =
          ⟨some pr.1, pr.2, (f s2 v).2.1, (f s2 v).2.2, [(sn, v)]⟩ := by
        conv_lhs => unfold stratLoop
        rw [hr2]
      rw [hredA, hredB]
    | none =>
      have hr2 : (f s2 v).1 = none := by rw [← hf s1 s2 v]; exact hr
      have hredA : stratLoop sn f fm s1 (v :: vs) =
          ⟨(stratLoop sn f fm ((f s1 v).2.1) vs).smiles,
           (stratLoop sn f fm ((f s1 v).2.1) vs).method,
           (stratLoop sn f fm ((f s1 v).2.1) vs).stats,
           (f s1 v).2.2 ++ (stratLoop sn f fm ((f s1 v).2.1) vs).calls,
           (sn, v) :: (stratLoop sn f fm ((f s1 v).2.1) vs).attempts⟩ := by
        conv_lhs => unfold stratLoop
        rw [hr]
      have hredB : stratLoop sn f fm s2 (v :: vs) =
          ⟨(stratLoop sn f fm ((f s2 v).2.1) vs).smiles,
           (stratLoop sn f fm ((f s2 v).2.1) vs).method,
           (stratLoop sn f fm ((f s2 v).2.1) vs).stats,
           (f s2 v).2.2 ++ (stratLoop sn f fm ((f s2 v).2.1) vs).calls,
           (sn, v) :: (stratLoop sn f fm ((f s2 v).2.1) vs).attempts⟩ := by
        conv_lhs => unfold stratLoop
        rw [hr2]
      rw [hredA, hredB]
      exact ih _ _

theorem modeAgree_cascade (b : Backend)
    (H1 : ∀ v, b.getNameCids v = none) (H2 : ∀ v, b.getNameSynonyms v = none)
    (H3 : ∀ v, b.postNameProperty v = none) (ef : Bool) (st st' : CState)
    (hc : st.cache = st'.cache) (hf : st.failed_compounds = st'.failed_compounds)
    (name : String) :
    (comprehensive_smiles_search ef b st name).smiles =
      (sync_comprehensive_search b st' name).smiles ∧
    (comprehensive_smiles_search ef b st name).state.cache =
      (sync_comprehensive_search b st' name).state.cache ∧
    (comprehensive_smiles_search ef b st name).state.failed_compounds =
      (sync_comprehensive_search b st' name).state.failed_compounds := by
  cases hcg : cacheGet st.cache name with
  | some s0 =>
    have hcg' : cacheGet st'.cache name = some s0 := by rw [← hc]; exact hcg
    rw [cascade_cached ef b st name s0 hcg, sync_cached b st' name s0 hcg']
    exact ⟨rfl, hc, hf⟩
  | none =>
    have hcg' : cacheGet st'.cache name = none := by rw [← hc]; exact hcg
    cases hm : memb st.failed_compounds name with
    | true =>
      have hm' : memb st'.failed_compounds name = true := by rw [← hf]; exact hm
      rw [cascade_failedreg ef b st name hcg hm, sync_failedreg b st' name hcg' hm']
      exact ⟨rfl, hc, hf⟩
    | false =>
      have hm' : memb st'.failed_compounds name = false := by rw [← hf]; exact hm
      have hAs := runStrategies_underH b H1 H2 H3 ef name st.strategy_stats
      have hSy := syncVars_eq_strat1 b H1 (clean_compound_name name) st'.strategy_stats
      have hIndep := stratLoop_smiles_indep "name_direct" "strategy_1_failed"
        (strat1Var b) (strat1Var_fst b) (clean_compound_name name)
        st'.strategy_stats st.strategy_stats
      have hchain : (syncVars b st'.strategy_stats (clean_compound_name name)).1.map
          Prod.fst = (runStrategies ef b name st.strategy_stats strategies).smiles := by
        rw [hSy, hIndep, hAs]
        rfl
      cases hr : (runStrategies ef b name st.strategy_stats strategies).smiles with
      | some s =>
        rw [hr] at hchain
        rcases Option.map_eq_some'.mp hchain with ⟨pr, hpr, hfst⟩
        rw [cascade_fresh_some ef b st name s hcg hm hr,
          sync_fresh_some b st' name pr hcg' hm' hpr]
        refine ⟨by rw [hfst], ?_, hf⟩
        rw [hc, hfst]
      | none =>
        rw [hr] at hchain
        have hpr : (syncVars b st'.strategy_stats (clean_compound_name name)).1 = none :=
          Option.map_eq_none'.mp hchain
        rw [cascade_fresh_none ef b st name hcg hm hr,
          sync_fresh_none b st' name hcg' hm' hpr]
        refine ⟨rfl, hc, ?_⟩
        rw [hf]

theorem cascade_name (ef : Bool) (b : Backend) (st : CState) (name : String) :
    (comprehensive_smiles_search ef b st name).name = name := by
  unfold comprehensive_smiles_search
  split
  · rfl
  · split
    · rfl
    · split <;> rfl

theorem sync_name (b : Backend) (st : CState) (name : String) :
    (sync_comprehensive_search b st name).name = name := by
  unfold sync_comprehensive_search
  split
  · rfl
  · split
    · rfl
    · split <;> rfl

theorem modeAgree_run (b : Backend)
    (H1 : ∀ v, b.getNameCids v = none) (H2 : ∀ v, b.getNameSynonyms v = none)
    (H3 : ∀ v, b.postNameProperty v = none) (ef : Bool) :
    ∀ (names : List String) (rs rs' : RunState),
      rs.cstate.cache = rs'.cstate.cache →
      rs.cstate.failed_compounds = rs'.cstate.failed_compounds →
      (async_process_compounds ef b rs names).1 = (sync_process_compounds b rs' names).1 := by
  intro names
  induction names with
  | nil => intro rs rs' _ _; rfl
  | cons c cs ih =>
    intro rs rs' hc hf
    have hm := modeAgree_cascade b H1 H2 H3 ef rs.cstate rs'.cstate hc hf c
    have hredA : async_process_compounds ef b rs (c :: cs) =
        (((comprehensive_smiles_search ef b rs.cstate c).name,
          (comprehensive_smiles_search ef b rs.cstate c).smiles) ::
           (async_process_compounds ef b
             (update_progress
               ⟨(comprehensive_smiles_search ef b rs.cstate c).state,
                rs.processed_count, rs.success_count⟩
               (comprehensive_smiles_search ef b rs.cstate c).smiles.isSome) cs).1,
         (async_process_compounds ef b
           (update_progress
             ⟨(comprehensive_smiles_search ef b rs.cstate c).state,
              rs.processed_count, rs.success_count⟩
             (comprehensive_smiles_search ef b rs.cstate c).smiles.isSome) cs).2) := by
      conv_lhs => unfold async_process_compounds
    have hredS : sync_process_compounds b rs' (c :: cs) =
        (((sync_comprehensive_search b rs'.cstate c).name,
          (sync_comprehensive_search b rs'.cstate c).smiles) ::
           (sync_process_compounds b
             (update_progress
               ⟨(sync_comprehensive_search b rs'.cstate c).state,
                rs'.processed_count, rs'.success_count⟩
               (sync_comprehensive_search b rs'.cstate c).smiles.isSome) cs).1,
         (sync_process_compounds b
           (update_progress
             ⟨(sync_comprehensive_search b rs'.cstate c).state,
              rs'.processed_count, rs'.success_count⟩
             (sync_comprehensive_search b rs'.cstate c).smiles.isSome) cs).2) := by
      conv_lhs => unfold sync_process_compounds
    rw [hredA, hredS]
    dsimp only
    rw [cascade_name, sync_name, hm.1]
    rw [ih (update_progress
        ⟨(comprehensive_smiles_search ef b rs.cstate c).state,
         rs.processed_count, rs.success_count⟩
        (sync_comprehensive_search b rs'.cstate c).smiles.isSome)
      (update_progress
        ⟨(sync_comprehensive_search b rs'.cstate c).state,
         rs'.processed_count, rs'.success_count⟩
        (sync_comprehensive_search b rs'.cstate c).smiles.isSome)
      hm.2.1 hm.2.2]

theorem memb_cons_false (x : String) (seen : List String) (k : String)
    (h : memb (x :: seen) k = false) : memb seen k = false ∧ ¬ x = k := by
  unfold memb at h
  by_cases hx : x = k
  · rw [if_pos hx] at h
    exact absurd h (by simp)
  · rw [if_neg hx] at h
    exact ⟨h, hx⟩

theorem dedupCIGo_spec : ∀ (l seen : List String),
    (∀ v, v ∈ dedupCIGo seen l → memb seen (lowerStr v) = false) ∧
    List.Pairwise (fun a c => lowerStr a ≠ lowerStr c) (dedupCIGo seen l) := by
  intro l
  induction l with
  | nil =>
    intro seen
    exact ⟨fun v h => absurd h (by simp [dedupCIGo]), by simp [dedupCIGo]⟩
  | cons v rest ih =>
    intro seen
    unfold dedupCIGo
    split
    next hcond =>
      obtain ⟨ih1, ih2⟩ := ih (lowerStr v :: seen)
      constructor
      · intro u hu
        rcases List.mem_cons.mp hu with rfl | hu'
        · exact hcond.2
        · exact (memb_cons_false _ _ _ (ih1 u hu')).1
      · refine List.Pairwise.cons ?_ ih2
        intro u hu
        exact (memb_cons_false _ _ _ (ih1 u hu)).2
    next =>
      exact ih seen

theorem dedup_take5_spec (V : List String) :
    ((dedupCIGo [] V).take 5).length ≤ 5 ∧
    List.Pairwise (fun a c => lowerStr a ≠ lowerStr c) ((dedupCIGo [] V).take 5) := by
  constructor
  · rw [List.length_take]
    exact min_le_left _ _
  · exact ((dedupCIGo_spec V []).2).sublist (List.take_sublist _ _)

theorem clean_empty (name : String) (h : pyStrip name = "") :
    clean_compound_name name = [] := by
  by_cases h0 : name = ""
  · simp [clean_compound_name, h0]
  · simp [clean_compound_name, h0, h]

theorem strategy1_empty (ef : Bool) (b : Backend) (stats : Stats) (name : String)
    (hclean : clean_compound_name name = []) :
    search_strategy_1_name_direct ef b stats name =
      ⟨none, "strategy_1_failed", stats, [], []⟩ := by
  show stratLoop "name_direct" (strat1Var b) "strategy_1_failed" stats
    (clean_compound_name name) = _
  rw [hclean]
  rfl

theorem strategy2_empty (ef : Bool) (b : Backend) (stats : Stats) (name : String)
    (hclean : clean_compound_name name = []) :
    search_strategy_2_cid_based ef b stats name =
      ⟨none, "strategy_2_failed", stats, [], []⟩ := by
  show stratLoop "cid_based" (strat2Var b) "strategy_2_failed" stats
    (clean_compound_name name) = _
  rw [hclean]
  rfl

theorem strategy3_empty (ef : Bool) (b : Backend) (stats : Stats) (name : String)
    (hclean : clean_compound_name name = []) :
    search_strategy_3_synonym_based ef b stats name =
      ⟨none, "strategy_3_failed", stats, [], []⟩ := by
  show stratLoop "synonym_based" (strat3Var b) "strategy_3_failed" stats
    (clean_compound_name name) = _
  rw [hclean]
  rfl

theorem strategy5_empty (ef : Bool) (b : Backend) (stats : Stats) (name : String)
    (hclean : clean_compound_name name = []) :
    search_strategy_5_post_request ef b stats name =
      ⟨none, "strategy_5_failed", stats, [], []⟩ := by
  show stratLoop "post_request" (strat5Var b) "strategy_5_failed" stats
    (clean_compound_name name) = _
  rw [hclean]
  rfl

theorem runStrategies_step_empty (ef : Bool) (b : Backend) (name : String)
    (stats : Stats) (fm : String) (g : Bool → Backend → Stats → String → StratRes)
    (gs : List (Bool → Backend → Stats → String → StratRes))
    (hg : g ef b stats name = ⟨none, fm, stats, [], []⟩) :
    runStrategies ef b name stats (g :: gs) = runStrategies ef b name stats gs := by
  conv_lhs => unfold runStrategies
  rw [hg]
  rfl

theorem runStrategies_empty (ef : Bool) (b : Backend) (name : String) (stats : Stats)
    (hclean : clean_compound_name name = []) :
    runStrategies ef b name stats strategies =
      ⟨none, "all_strategies_failed", stats, [], []⟩ := by
  have e4 : ∃ fm, search_strategy_4_fuzzy_search ef b stats name =
      ⟨none, fm, stats, [], []⟩ := by
    cases ef with
    | true =>
      refine ⟨"strategy_4_failed", ?_⟩
      show stratLoop "fuzzy_search" (strat4Var b) "strategy_4_failed" stats
        (clean_compound_name name) = _
      rw [hclean]
      rfl
    | false => exact ⟨"fuzzy_disabled", rfl⟩
  obtain ⟨fm4, e4⟩ := e4
  rw [show strategies = [search_strategy_1_name_direct, search_strategy_2_cid_based,
      search_strategy_3_synonym_based, search_strategy_5_post_request,
      search_strategy_4_fuzzy_search] from rfl,
    runStrategies_step_empty ef b name stats _ _ _ (strategy1_empty ef b stats name hclean),
    runStrategies_step_empty ef b name stats _ _ _ (strategy2_empty ef b stats name hclean),
    runStrategies_step_empty ef b name stats _ _ _ (strategy3_empty ef b stats name hclean),
    runStrategies_step_empty ef b name stats _ _ _ (strategy5_empty ef b stats name hclean),
    runStrategies_step_empty ef b name stats _ _ _ e4]
  rfl

theorem cascade_empty (ef : Bool) (b : Backend) (st : CState) (name : String)
    (h1 : cacheGet st.cache name = none) (h2 : memb st.failed_compounds name = false)
    (hclean : clean_compound_name name = []) :
    comprehensive_smiles_search ef b st name =
      ⟨name, none, "all_strategies_failed",
       ⟨st.cache, name :: st.failed_compounds, st.strategy_stats⟩, [], []⟩ := by
  have hrun := runStrategies_empty ef b name st.strategy_stats hclean
  have h := cascade_fresh_none ef b st name h1 h2 (by rw [hrun])
  rw [h, hrun]

theorem strategies_attempts_forall (b : Backend) (name : String) :
    List.Forall₂ (fun g sn => ∀ stats : Stats,
      isHeadSeg (g true b stats name).attempts
        ((clean_compound_name name).map (fun v => (sn, v))) ∧
      ((g true b stats name).smiles = none →
        (g true b stats name).attempts =
          (clean_compound_name name).map (fun v => (sn, v)))) strategies strategyOrder := by
  rw [show strategies = [search_strategy_1_name_direct, search_strategy_2_cid_based,
      search_strategy_3_synonym_based, search_strategy_5_post_request,
      search_strategy_4_fuzzy_search] from rfl,
    show strategyOrder = ["name_direct", "cid_based", "synonym_based", "post_request",
      "fuzzy_search"] from rfl]
  refine List.Forall₂.cons ?_ (List.Forall₂.cons ?_ (List.Forall₂.cons ?_
    (List.Forall₂.cons ?_ (List.Forall₂.cons ?_ List.Forall₂.nil))))
  · intro stats
    exact ⟨(strategy1_spec true b name stats).2.2,
           fun h => ((strategy1_spec true b name stats).1 h).2⟩
  · intro stats
    exact ⟨(strategy2_spec true b name stats).2.2,
           fun h => ((strategy2_spec true b name stats).1 h).2⟩
  · intro stats
    exact ⟨(strategy3_spec true b name stats).2.2,
           fun h => ((strategy3_spec true b name stats).1 h).2⟩
  · intro stats
    exact ⟨(strategy5_spec true b name stats).2.2,
           fun h => ((strategy5_spec true b name stats).1 h).2⟩
  · intro stats
    exact ⟨(strategy4_spec_enabled b name stats).2.2,
           fun h => ((strategy4_spec_enabled b name stats).1 h).2⟩

/-- C1: For every compound name not served from the cache or the failure
registry, the cascade `comprehensive_smiles_search` (fuzzy search enabled)
tries the strategies in the fixed priority order direct-name, identifier-code
(CID), synonym-based, free-text POST, fuzzy-wildcard, and within each strategy
iterates the full variant list before moving to the next strategy: the
sequence of attempted (strategy, variant) pairs is always an initial segment
of the strategy-major, variant-minor order `strategyMajorPairs`, and when
every strategy misses it is exactly that order. -/
theorem c1_strategy_major_order (b : Backend) (st : CState) (name : String)
    (h1 : cacheGet st.cache name = none) (h2 : memb st.failed_compounds name = false) :
    isHeadSeg (comprehensive_smiles_search true b st name).attempts
      (strategyMajorPairs name) ∧
    ((comprehensive_smiles_search true b st name).smiles = none →
      (comprehensive_smiles_search true b st name).attempts = strategyMajorPairs name) := by
  have hrun := runStrategies_attempts true b name strategies strategyOrder
    (strategies_attempts_forall b name) st.strategy_stats
  cases hr : (runStrategies true b name st.strategy_stats strategies).smiles with
  | some s =>
    rw [cascade_fresh_some true b st name s h1 h2 hr]
    exact ⟨hrun.1, fun h => absurd h (by simp)⟩
  | none =>
    rw [cascade_fresh_none true b st name h1 h2 hr]
    exact ⟨hrun.1, fun _ => hrun.2 hr⟩

/-- Witness for C1 at a concrete fresh name on which every strategy misses:
the attempted pairs are exactly the strategy-major order. -/
theorem c1_strategy_major_order_witness :
    (comprehensive_smiles_search true wBackend st0 "zzz").attempts =
      strategyMajorPairs "zzz" :=
  (c1_strategy_major_order wBackend st0 "zzz" (by decide) (by decide)).2 (by decide)

/-- C2: resolving a name a second time after a successful first resolution is
served from the cache: the second call returns the identical identifier with
status `cached` and issues zero backend calls (empty call trace), leaving the
state untouched. -/
theorem c2_cache_idempotent (ef : Bool) (b : Backend) (st : CState) (name s : String)
    (h : (comprehensive_smiles_search ef b st name).smiles = some s) :
    comprehensive_smiles_search ef b (comprehensive_smiles_search ef b st name).state name =
      ⟨name, some s, "cached", (comprehensive_smiles_search ef b st name).state, [], []⟩ :=
  cascade_cached ef b _ name s (cascade_some_cache ef b st name s h)

/-- Witness for C2: a concrete successful first resolution followed by a
cached second resolution. -/
theorem c2_cache_idempotent_witness :
    comprehensive_smiles_search true wBackend
        (comprehensive_smiles_search true wBackend st0 "aspirin").state "aspirin" =
      ⟨"aspirin", some "CC(=O)Oc1ccccc1C(=O)O", "cached",
       (comprehensive_smiles_search true wBackend st0 "aspirin").state, [], []⟩ :=
  c2_cache_idempotent true wBackend st0 "aspirin" "CC(=O)Oc1ccccc1C(=O)O" (by decide)

/-- C3: once a resolution attempt for a name ends without an identifier (the
name is in the failure registry), every later resolution of that name returns
a not-found outcome with status `permanently_failed` and issues zero backend
calls (empty call trace); the name is never retried. -/
theorem c3_failure_memoized (ef : Bool) (b : Backend) (st : CState) (name : String)
    (h : (comprehensive_smiles_search ef b st name).smiles = none) :
    comprehensive_smiles_search ef b (comprehensive_smiles_search ef b st name).state name =
      ⟨name, none, "permanently_failed",
       (comprehensive_smiles_search ef b st name).state, [], []⟩ := by
  have hn := cascade_none_state ef b st name h
  exact cascade_failedreg ef b _ name hn.1 hn.2

/-- Witness for C3: a concrete exhausted name is afterwards served from the
failure registry without backend traffic. -/
theorem c3_failure_memoized_witness :
    comprehensive_smiles_search true wBackend
        (comprehensive_smiles_search true wBackend st0 "zzz").state "zzz" =
      ⟨"zzz", none, "permanently_failed",
       (comprehensive_smiles_search true wBackend st0 "zzz").state, [], []⟩ :=
  c3_failure_memoized true wBackend st0 "zzz" (by decide)

/-- C4 counterexample: the claim says every string containing a character
outside the notation alphabet is rejected, but `validate_smiles` strips
leading and trailing whitespace before checking, so the string containing
spaces around a valid core is accepted although the space character is not in
the alphabet. -/
theorem c4_validator_counterexample :
    validate_smiles " CCC " = true ∧ (' ' ∈ " CCC ".data) ∧ ¬ (' ' ∈ validChars) :=
  ⟨by decide, by decide, by decide⟩

/-- C4 (amended): the validator rejects every string shorter than 3
characters, every string whose trimmed core contains a character outside the
notation alphabet, and every string with unbalanced parentheses or brackets;
it accepts the well-formed example.  (The amendment: the character-alphabet
rule applies to the string after stripping leading/trailing whitespace, which
the validator tolerates.)  Purity and determinism are inherent: the embedding
is a pure function. -/
theorem c4_validator_amended (s : String) :
    (s.length < 3 → validate_smiles s = false) ∧
    ((∃ c ∈ (pyStrip s).data, ¬ c ∈ validChars) → validate_smiles s = false) ∧
    (¬ s.data.count '(' = s.data.count ')' → validate_smiles s = false) ∧
    (¬ s.data.count '[' = s.data.count ']' → validate_smiles s = false) ∧
    validate_smiles "CC(=O)Oc1ccccc1C(=O)O" = true := by
  refine ⟨?_, ?_, ?_, ?_, by decide⟩
  · intro hlen
    cases hv : validate_smiles s with
    | false => rfl
    | true =>
      exfalso
      obtain ⟨_, h3, _⟩ := (validate_smiles_iff s).mp hv
      have h3' : 3 ≤ (stripList s.data).length := h3
      have hlen' : s.data.length < 3 := hlen
      have hle := stripList_length_le s.data
      omega
  · rintro ⟨c, hc, hnc⟩
    cases hv : validate_smiles s with
    | false => rfl
    | true => exact absurd (((validate_smiles_iff s).mp hv).2.2.1 c hc) hnc
  · intro hcount
    cases hv : validate_smiles s with
    | false => rfl
    | true =>
      exfalso
      obtain ⟨_, _, _, h4, _⟩ := (validate_smiles_iff s).mp hv
      have e1 := count_stripList '(' (by decide) s.data
      have e2 := count_stripList ')' (by decide) s.data
      exact hcount (by rw [← e1, ← e2]; exact h4)
  · intro hcount
    cases hv : validate_smiles s with
    | false => rfl
    | true =>
      exfalso
      obtain ⟨_, _, _, _, h5⟩ := (validate_smiles_iff s).mp hv
      have e1 := count_stripList '[' (by decide) s.data
      have e2 := count_stripList ']' (by decide) s.data
      exact hcount (by rw [← e1, ← e2]; exact h5)

/-- Witness for the amended C4, discharging each rejection rule at a concrete
string. -/
theorem c4_validator_amended_witness :
    validate_smiles "ab" = false ∧ validate_smiles "C.C" = true ∧
    validate_smiles "C?C" = false ∧ validate_smiles "C((C" = false ∧
    validate_smiles "C]]C" = false ∧ validate_smiles "CC(=O)Oc1ccccc1C(=O)O" = true :=
  ⟨(c4_validator_amended "ab").1 (by decide), by decide,
   (c4_validator_amended "C?C").2.1 (by decide),
   (c4_validator_amended "C((C").2.2.1 (by decide),
   (c4_validator_amended "C]]C").2.2.2.1 (by decide),
   (c4_validator_amended "x").2.2.2.2⟩

/-- C5: when the first strategy succeeds on the first variant (the direct
name lookup of the first variant yields an extractable, validator-accepted
identifier), the cascade attempts exactly that one (strategy, variant) pair,
issues exactly that one backend call, writes the identifier into the cache
under the original compound name, and records the winning strategy and
variant in the status. -/
theorem c5_short_circuit (ef : Bool) (b : Backend) (st : CState) (name v : String)
    (vs : List String) (data : PyVal) (s : String)
    (h1 : cacheGet st.cache name = none) (h2 : memb st.failed_compounds name = false)
    (hv : clean_compound_name name = v :: vs)
    (hb : b.getNameProperty v = some data) (he : extract data = some s) :
    comprehensive_smiles_search ef b st name =
      ⟨name, some s, "name_direct:" ++ v,
       ⟨(name, s) :: st.cache, st.failed_compounds,
        statInc st.strategy_stats "name_direct"⟩,
       [Call.getNameProperty v], [("name_direct", v)]⟩ := by
  have hfv : strat1Var b st.strategy_stats v =
      (some (s, "name_direct:" ++ v), statInc st.strategy_stats "name_direct",
       [Call.getNameProperty v]) := by
    unfold strat1Var
    simp only [hb, he]
  have hs1 : search_strategy_1_name_direct ef b st.strategy_stats name =
      ⟨some s, "name_direct:" ++ v, statInc st.strategy_stats "name_direct",
       [Call.getNameProperty v], [("name_direct", v)]⟩ := by
    show stratLoop "name_direct" (strat1Var b) "strategy_1_failed" st.strategy_stats
      (clean_compound_name name) = _
    rw [hv]
    conv_lhs => unfold stratLoop
    rw [hfv]
  have hrun : runStrategies ef b name st.strategy_stats strategies =
      ⟨some s, "name_direct:" ++ v, statInc st.strategy_stats "name_direct",
       [Call.getNameProperty v], [("name_direct", v)]⟩ := by
    rw [show strategies = search_strategy_1_name_direct :: [search_strategy_2_cid_based,
        search_strategy_3_synonym_based, search_strategy_5_post_request,
        search_strategy_4_fuzzy_search] from rfl,
      runStrategies_cons_some ef b name st.strategy_stats _ _ s (by rw [hs1]),
      hs1]
  have h := cascade_fresh_some ef b st name s h1 h2 (by rw [hrun])
  rw [h, hrun]

/-- Witness for C5: a concrete name whose first variant resolves directly on
the first strategy. -/
theorem c5_short_circuit_witness :
    comprehensive_smiles_search true wBackend st0 "aspirin" =
      ⟨"aspirin", some "CC(=O)Oc1ccccc1C(=O)O", "name_direct:aspirin",
       ⟨[("aspirin", "CC(=O)Oc1ccccc1C(=O)O")], [], [("name_direct", 1)]⟩,
       [Call.getNameProperty "aspirin"], [("name_direct", "aspirin")]⟩ :=
  c5_short_circuit true wBackend st0 "aspirin" "aspirin" [] wData
    "CC(=O)Oc1ccccc1C(=O)O" (by decide) (by decide) (by decide) rfl (by decide)

/-- C6 counterexample: the two execution modes are not equivalent on the same
mocked backend.  On a backend that answers only the free-text POST lookup,
cooperative mode resolves the name (the POST strategy exists only there)
while worker-pool mode, which implements only the direct-name and
identifier-code strategies, fails: the produced mappings differ. -/
theorem c6_mode_equivalence_counterexample :
    (async_process_compounds true cePost rs0 ["aspirin"]).1 =
      [("aspirin", some "CC(=O)Oc1ccccc1C(=O)O")] ∧
    (sync_process_compounds cePost rs0 ["aspirin"]).1 = [("aspirin", none)] ∧
    ¬ (async_process_compounds true cePost rs0 ["aspirin"]).1 =
        (sync_process_compounds cePost rs0 ["aspirin"]).1 :=
  ⟨by decide, by decide, by decide⟩

/-- C6 (amended): the two modes produce the identical name-to-identifier
mapping whenever the backend answers only direct-name GET lookups — i.e. the
identifier-code, synonym and free-text endpoints always miss — for any input
list and starting state; in general they differ, because the worker-pool path
implements only the direct-name and identifier-code strategies
(variant-major, at most 2 codes). -/
theorem c6_mode_equivalence_amended (b : Backend)
    (H1 : ∀ v, b.getNameCids v = none) (H2 : ∀ v, b.getNameSynonyms v = none)
    (H3 : ∀ v, b.postNameProperty v = none) (ef : Bool) (names : List String)
    (rs : RunState) :
    (async_process_compounds ef b rs names).1 = (sync_process_compounds b rs names).1 :=
  modeAgree_run b H1 H2 H3 ef names rs rs rfl rfl

/-- Witness for the amended C6 on a concrete direct-name-only backend. -/
theorem c6_mode_equivalence_amended_witness :
    (async_process_compounds true wBackend rs0 ["aspirin", "zzz"]).1 =
      (sync_process_compounds wBackend rs0 ["aspirin", "zzz"]).1 :=
  c6_mode_equivalence_amended wBackend (fun _ => rfl) (fun _ => rfl) (fun _ => rfl)
    true ["aspirin", "zzz"] rs0

/-- C7: the normalizer is a pure function (the same input always yields the
same ordered variant list — stated as reflexivity, which is all purity means
in this embedding), and its output is an ordered, case-insensitively
deduplicated list of at most 5 query variants. -/
theorem c7_normalizer_spec (name : String) :
    clean_compound_name name = clean_compound_name name ∧
    (clean_compound_name name).length ≤ 5 ∧
    List.Pairwise (fun a c => lowerStr a ≠ lowerStr c) (clean_compound_name name) := by
  refine ⟨rfl, ?_⟩
  unfold clean_compound_name
  split
  · exact ⟨by simp, by simp⟩
  · dsimp only
    split
    · exact ⟨by simp, by simp⟩
    · exact dedup_take5_spec _

/-- C8 counterexample: the empty name makes no backend call, but its status
is the generic `all_strategies_failed` (the same status as an exhausted
cascade), not a distinct `Invalid` status — even on a backend that would
resolve any direct-name request. -/
theorem c8_invalid_status_counterexample :
    (comprehensive_smiles_search true ceAllGood st0 "").status =
      "all_strategies_failed" ∧
    ¬ (comprehensive_smiles_search true ceAllGood st0 "").status = "invalid" ∧
    ¬ (comprehensive_smiles_search true ceAllGood st0 "").status = "Invalid" ∧
    (comprehensive_smiles_search true ceAllGood st0 "").calls = [] :=
  ⟨by decide, by decide, by decide, by decide⟩

/-- C8 (amended): for every empty or whitespace-only name not yet in the
cache or failure registry, resolution makes no backend call (empty call
trace), returns no identifier, and the name is added to the failure registry
with status `all_strategies_failed`; no distinct `Invalid` status exists in
the code. -/
theorem c8_empty_name_amended (ef : Bool) (b : Backend) (st : CState) (name : String)
    (hws : pyStrip name = "") (h1 : cacheGet st.cache name = none)
    (h2 : memb st.failed_compounds name = false) :
    comprehensive_smiles_search ef b st name =
      ⟨name, none, "all_strategies_failed",
       ⟨st.cache, name :: st.failed_compounds, st.strategy_stats⟩, [], []⟩ :=
  cascade_empty ef b st name h1 h2 (clean_empty name hws)

/-- Witness for the amended C8 at a concrete whitespace-only name. -/
theorem c8_empty_name_amended_witness :
    comprehensive_smiles_search true ceAllGood st0 "  " =
      ⟨"  ", none, "all_strategies_failed",
       ⟨[], ["  "], []⟩, [], []⟩ :=
  c8_empty_name_amended true ceAllGood st0 "  " (by decide) (by decide) (by decide)

/-- C9 counterexample: the code keeps no `invalid` counter.  Reading the
spec's invalid statistic as the number of input names rejected as invalid
(those yielding no query variants, per the spec's upstream-rejection rule),
the identity `succeeded + failed + invalid = total` fails on the single-name
run over the empty name: such a name is also counted in the failure registry,
so the sum is 2 while the input count is 1. -/
theorem c9_statistics_counterexample :
    ¬ ((async_process_compounds true wBackend rs0 [""]).2.success_count +
        (async_process_compounds true wBackend rs0 [""]).2.cstate.failed_compounds.length +
        invalidUpstreamCount [""] = ([""] : List String).length) := by
  decide

/-- C9 (amended): for a run over distinct input names starting from the reset
state, the statistics satisfy `succeeded + failed = total` — there is no
separate invalid count; names without usable variants are counted among the
failed — and the per-strategy success counters sum to the succeeded count. -/
theorem c9_statistics_amended (ef : Bool) (b : Backend) (names : List String)
    (hnd : names.Nodup) :
    (async_process_compounds ef b rs0 names).2.success_count +
      (async_process_compounds ef b rs0 names).2.cstate.failed_compounds.length =
      names.length ∧
    statsSum (async_process_compounds ef b rs0 names).2.cstate.strategy_stats =
      (async_process_compounds ef b rs0 names).2.success_count := by
  have h := asyncCount ef b names rs0 hnd (fun n _ => ⟨rfl, rfl⟩)
  have h1 := h.1
  have h2 := h.2
  have e1 : rs0.success_count = 0 := rfl
  have e2 : rs0.cstate.failed_compounds.length = 0 := rfl
  have e3 : statsSum rs0.cstate.strategy_stats = 0 := rfl
  rw [e1, e2] at h1
  rw [e1, e3] at h2
  exact ⟨by omega, by omega⟩

/-- Witness for the amended C9 on a concrete two-name run with one success
and one failure. -/
theorem c9_statistics_amended_witness :
    (async_process_compounds true wBackend rs0 ["aspirin", "zzz"]).2.success_count +
      (async_process_compounds true wBackend rs0
        ["aspirin", "zzz"]).2.cstate.failed_compounds.length =
      (["aspirin", "zzz"] : List String).length ∧
    statsSum (async_process_compounds true wBackend rs0
        ["aspirin", "zzz"]).2.cstate.strategy_stats =
      (async_process_compounds true wBackend rs0 ["aspirin", "zzz"]).2.success_count :=
  c9_statistics_amended true wBackend ["aspirin", "zzz"] (by decide)

/-- C10: every identifier stored in the cache was accepted by the validator
at insertion time: if every cache entry of the starting state passes
`validate_smiles`, then after processing any list of names — in either
execution mode — every cache entry still passes it. -/
theorem c10_cache_validated (ef : Bool) (b : Backend) (names : List String)
    (rs : RunState) (h : cacheOK rs.cstate.cache = true) :
    cacheOK (async_process_compounds ef b rs names).2.cstate.cache = true ∧
    cacheOK (sync_process_compounds b rs names).2.cstate.cache = true :=
  ⟨asyncProcess_cacheOK ef b names rs h, syncProcess_cacheOK b names rs h⟩

/-- Witness for C10 on a concrete run that populates the cache. -/
theorem c10_cache_validated_witness :
    cacheOK (async_process_compounds true wBackend rs0
        ["aspirin", "zzz"]).2.cstate.cache = true ∧
    cacheOK (sync_process_compounds wBackend rs0
        ["aspirin", "zzz"]).2.cstate.cache = true :=
  c10_cache_validated true wBackend ["aspirin", "zzz"] rs0 (by decide)
